import Mathlib

/-!
Verification development for the Jenkins declarative-pipeline to GitHub Actions
converter (src/Converter.py).  The Python source is shallowly embedded: text is
a `List Char`, Python string indices are `Nat`, the sentinel span `(-1, -1)` is
`Option.none`, Python dicts are insertion-ordered association lists, and each
regular expression used by the source is hand-compiled to an equivalent
deterministic scanner.
-/

namespace Converter

/-- Python `text[i]` as a safe lookup. -/
def charAt (t : List Char) (i : Nat) : Option Char := t.get? i

/-- Python slice `text[i:j]`. -/
def seg (t : List Char) (i j : Nat) : List Char := (t.drop i).take (j - i)

/-- Word characters for the regex `\b` boundary and `\w` (ASCII inputs). -/
def isWordChar (c : Char) : Bool := c.isAlphanum || c == '_'

/-- Quote characters recognized by the source regexes `['\"]`. -/
def isQuote (c : Char) : Bool := c == '\x27' || c == '"'

/-- Python `str.strip()` on a character list. -/
def pstrip (l : List Char) : List Char :=
  ((l.dropWhile Char.isWhitespace).reverse.dropWhile Char.isWhitespace).reverse

/-- Python `str.strip(chars)` for an arbitrary strip set. -/
def pstripSet (p : Char → Bool) (l : List Char) : List Char :=
  ((l.dropWhile p).reverse.dropWhile p).reverse

/-- Python `str.lower()` (ASCII). -/
def plower (l : List Char) : List Char := l.map Char.toLower

/-- Match the literal `lit` at index `i`; return the index just past it. -/
def litAt (t : List Char) (lit : List Char) (i : Nat) : Option Nat :=
  match lit with
  | [] => some i
  | c :: cs =>
    match t.get? i with
    | some c' => if c' = c then litAt t cs (i + 1) else none
    | none => none

/-!
Python's scanning `while` loops advance an index through the text; each is
embedded as structural recursion on a fuel counter fixed to `t.length + 1`,
which always exceeds the number of remaining loop iterations, so the fuel
variant agrees with the unbounded loop.  (Structural recursion keeps every
definition kernel-reducible on concrete inputs.)
-/

/-- Fuel variant of the whitespace-skipping loop. -/
def skipWsF (t : List Char) : Nat → Nat → Nat
  | 0, i => i
  | fuel + 1, i =>
    match t.get? i with
    | some c => if c.isWhitespace then skipWsF t fuel (i + 1) else i
    | none => i

/-- Regex `\s*`: first index at or after `i` whose character is not whitespace. -/
def skipWs (t : List Char) (i : Nat) : Nat := skipWsF t (t.length + 1) i

/-- Regex `\s+`: like `skipWs` but at least one whitespace character. -/
def ws1 (t : List Char) (i : Nat) : Option Nat :=
  match t.get? i with
  | some c => if c.isWhitespace then some (skipWs t (i + 1)) else none
  | none => none

/-- Fuel variant of the brace-depth loop of `find_block` (lines 45-52). -/
def scanCloseF (t : List Char) : Nat → Nat → Nat → Option Nat
  | 0, _, _ => none
  | fuel + 1, i, depth =>
    match t.get? i with
    | none => none
    | some c =>
      if c = '{' then scanCloseF t fuel (i + 1) (depth + 1)
      else if c = '}' then
        if depth = 0 then some i else scanCloseF t fuel (i + 1) (depth - 1)
      else scanCloseF t fuel (i + 1) depth

/-- The brace-depth loop of `find_block` (Converter.py lines 45-52): starting
at index `i` with nesting `depth`, return the index of the closing brace that
ends the block, or `none` when the braces are unbalanced. -/
def scanClose (t : List Char) (i depth : Nat) : Option Nat :=
  scanCloseF t (t.length + 1) i depth

/-- Fuel variant of the leftmost-match search loop. -/
def searchFromF (t : List Char) (m : Nat → Option α) : Nat → Nat → Option α
  | 0, _ => none
  | fuel + 1, i =>
    if i < t.length then
      match m i with
      | some a => some a
      | none => searchFromF t m fuel (i + 1)
    else none

/-- Generic leftmost-match regex search driver: try the matcher at
`i, i+1, ...` and return the first success (Python `re.search`). -/
def searchFrom (t : List Char) (m : Nat → Option α) (i : Nat) : Option α :=
  searchFromF t m (t.length + 1) i

/-- Match `\bkw\b` at index `i`, returning the match end (the keyword must not
be preceded or followed by a word character). -/
def matchWordAt (t kw : List Char) (i : Nat) : Option Nat :=
  match litAt t kw i with
  | some e =>
    let beforeOk : Bool :=
      match i with
      | 0 => true
      | Nat.succ i' =>
        match t.get? i' with
        | some c => !isWordChar c
        | none => true
    let afterOk : Bool :=
      match t.get? e with
      | some c => !isWordChar c
      | none => true
    if beforeOk && afterOk then some e else none
  | none => none

/-- Python `re.search(rf"\b{kw}\b", text)`: end index of the leftmost
whole-word occurrence. -/
def searchWord (t kw : List Char) : Option Nat :=
  searchFrom t (matchWordAt t kw) 0

/-- Converter.py `find_block` (lines 33-53), specialized to the `\bkw\b`
keyword patterns used at every call site.  Returns the span strictly between
the opening brace that follows the keyword and its balancing closing brace;
the Python sentinel `(-1, -1)` is modeled as `none`. -/
def find_block (t kw : List Char) : Option (Nat × Nat) :=
  match searchWord t kw with
  | none => none
  | some mEnd =>
    let i := skipWs t mEnd
    match t.get? i with
    | some '{' =>
      match scanClose t (i + 1) 0 with
      | some e => some (i + 1, e)
      | none => none
    | _ => none

/-- Net brace balance of a text fragment: `+1` per `'{'`, `-1` per `'}'`. -/
def braceBal : List Char → Int
  | [] => 0
  | c :: cs => (if c = '{' then 1 else if c = '}' then (-1 : Int) else 0) + braceBal cs

/-- Drop everything up to and including the first occurrence of the block
comment terminator; `none` when there is no terminator. -/
def dropToCommentClose : List Char → Option (List Char)
  | [] => none
  | '*' :: '/' :: rest => some rest
  | _ :: rest => dropToCommentClose rest

/-- Fuel variant of block-comment removal; every step consumes at least one
character, so fuel `l.length` is always enough. -/
def stripBlockCommentsF : Nat → List Char → List Char
  | 0, l => l
  | fuel + 1, l =>
    match l with
    | [] => []
    | '/' :: '*' :: rest =>
      match dropToCommentClose rest with
      | some rest' => stripBlockCommentsF fuel rest'
      | none => '/' :: '*' :: rest
    | c :: rest => c :: stripBlockCommentsF fuel rest

/-- Python `re.sub(r"/\*.*?\*/", "", text, flags=re.DOTALL)`: remove each
leftmost shortest block comment; an unterminated `/*` never matches. -/
def stripBlockComments (l : List Char) : List Char := stripBlockCommentsF l.length l

/-- Drop the rest of the current line (regex `.` does not cross a newline). -/
def dropLineRest : List Char → List Char
  | [] => []
  | '\n' :: rest => '\n' :: rest
  | _ :: rest => dropLineRest rest

/-- Fuel variant of line-comment removal. -/
def stripLineCommentsF : Nat → List Char → List Char
  | 0, l => l
  | fuel + 1, l =>
    match l with
    | [] => []
    | '/' :: '/' :: rest => stripLineCommentsF fuel (dropLineRest rest)
    | c :: rest => c :: stripLineCommentsF fuel rest

/-- Python `re.sub(r"//.*", "", text)`: remove from each `//` to end of line. -/
def stripLineComments (l : List Char) : List Char := stripLineCommentsF l.length l

/-- Converter.py `strip_comments` (lines 28-31). -/
def strip_comments (t : List Char) : List Char :=
  stripLineComments (stripBlockComments t)

/-- Regex fragment `['\"]([^'\"]+)['\"]` at index `i`: an opening quote, a
nonempty run of non-quote characters, and a closing quote (either kind).
Returns the captured run and the index just past the closing quote. -/
def quotedAt (t : List Char) (i : Nat) : Option (List Char × Nat) :=
  match t.get? i with
  | some c =>
    if isQuote c then
      let stop := i + 1 + ((t.drop (i + 1)).takeWhile (fun c => !isQuote c)).length
      if stop = i + 1 then none
      else
        match t.get? stop with
        | some c' => if isQuote c' then some (seg t (i + 1) stop, stop + 1) else none
        | none => none
    else none
  | none => none

/-- Regex fragment `['\"]([^'\"]*)['\"]` at index `i`: like `quotedAt` but the
captured run may be empty. -/
def quotedAt0 (t : List Char) (i : Nat) : Option (List Char × Nat) :=
  match t.get? i with
  | some c =>
    if isQuote c then
      let stop := i + 1 + ((t.drop (i + 1)).takeWhile (fun c => !isQuote c)).length
      match t.get? stop with
      | some c' => if isQuote c' then some (seg t (i + 1) stop, stop + 1) else none
      | none => none
    else none
  | none => none

/-- Python `re.finditer`: collect every non-overlapping leftmost match, each
matcher result carrying its payload and its match-end index.  The fuel is
`t.length + 1`, enough because every match consumes at least one character. -/
def finditer (t : List Char) (m : Nat → Option (α × Nat)) : List α :=
  go (t.length + 1) 0
where
  go : Nat → Nat → List α
    | 0, _ => []
    | fuel + 1, i =>
      match searchFrom t m i with
      | none => []
      | some (a, e) => a :: go fuel (max e (i + 1))

/-- Converter.py `sanitize_name` (lines 55-57). -/
def sanitize_name (name : List Char) : List Char :=
  (pstrip name).map (fun c => if c.isAlphanum || c == '_' || c == '-' then c else '_')

/-- Fuel variant of the dash-collapsing scan. -/
def dashRunsF : Nat → List Char → List Char
  | 0, l => l
  | fuel + 1, l =>
    match l with
    | [] => []
    | c :: rest =>
      if c.isAlphanum then c :: dashRunsF fuel rest
      else '-' :: dashRunsF fuel (rest.dropWhile (fun c => !c.isAlphanum))

/-- Collapse each maximal run of non-alphanumeric characters to a single dash
(Python `re.sub(r"[^a-zA-Z0-9]+", "-", s)`). -/
def dashRuns (l : List Char) : List Char := dashRunsF l.length l

/-- Converter.py `gha_job_id` (lines 59-61). -/
def gha_job_id (name : String) : String :=
  let slug := plower (pstripSet (· == '-') (dashRuns (pstrip name.data)))
  if slug.isEmpty then "job" else String.mk slug

/-! Python dicts are insertion-ordered; assignment to an existing key updates
the value in place, otherwise the pair is appended. -/

/-- Python `d[k] = v` on an insertion-ordered dict. -/
def dictInsert : List (String × α) → String → α → List (String × α)
  | [], k, v => [(k, v)]
  | (k', v') :: rest, k, v =>
    if k' = k then (k, v) :: rest else (k', v') :: dictInsert rest k v

/-- Python `d.get(k)` on an insertion-ordered dict. -/
def dictGet? : List (String × α) → String → Option α
  | [], _ => none
  | (k', v') :: rest, k => if k' = k then some v' else dictGet? rest k

/-- Match one literal character at index `i`. -/
def chAt (t : List Char) (c : Char) (i : Nat) : Option Nat :=
  match t.get? i with
  | some c' => if c' = c then some (i + 1) else none
  | none => none

/-- A stage as produced by `split_stages`: its quoted name and the raw text of
its brace-delimited body. -/
structure RawStage where
  name : String
  content : List Char
deriving DecidableEq, Repr

/-- Split on newline characters (`str.splitlines`; every consumer strips and
drops blank lines, so the treatment of a trailing newline is immaterial). -/
def splitLines : List Char → List (List Char)
  | [] => [[]]
  | '\n' :: rest => [] :: splitLines rest
  | c :: rest =>
    match splitLines rest with
    | [] => [[c]]
    | l :: ls => (c :: l) :: ls

/-- Converter.py `multiline_to_commands` (lines 241-243). -/
def multiline_to_commands (s : List Char) : List (List Char) :=
  ((splitLines s).map pstrip).filter (fun l => !l.isEmpty)

/-- The head of the `stage("name") {` regex of `split_stages` (line 204):
returns the captured name and the index of the opening brace, plus the match
end. -/
def stageHeaderAt (t : List Char) (i : Nat) : Option ((List Char × Nat) × Nat) := do
  let j ← litAt t "stage".data i
  let j := skipWs t j
  let j ← chAt t '(' j
  let j := skipWs t j
  let (name, j) ← quotedAt t j
  let j := skipWs t j
  let j ← chAt t ')' j
  let j := skipWs t j
  let j ← chAt t '{' j
  pure ((name, j - 1), j)

/-- Converter.py `split_stages` (lines 200-225): repeatedly find the next
stage header, then brace-match its body; stop on an unbalanced body.  Fuel
`t.length + 1` is enough because each iteration advances the scan position. -/
def split_stagesAux (t : List Char) : Nat → Nat → List RawStage
  | 0, _ => []
  | fuel + 1, i =>
    match searchFrom t (stageHeaderAt t) i with
    | none => []
    | some ((name, bracePos), _) =>
      match scanClose t (bracePos + 1) 0 with
      | some j => ⟨String.mk name, seg t (bracePos + 1) j⟩ :: split_stagesAux t fuel (j + 1)
      | none => []

/-- Converter.py `split_stages`. -/
def split_stages (t : List Char) : List RawStage := split_stagesAux t (t.length + 1) 0

/-- Regex `sh\s+['\"]([^'\"]+)['\"]`. -/
def shSingleAt (t : List Char) (i : Nat) : Option (List Char × Nat) := do
  let j ← litAt t "sh".data i
  let j ← ws1 t j
  quotedAt t j

/-- Three consecutive quote characters (regex `([\"']{3})`). -/
def threeQuotesAt (t : List Char) (i : Nat) : Option (List Char) :=
  match t.get? i, t.get? (i + 1), t.get? (i + 2) with
  | some a, some b, some c =>
    if isQuote a && isQuote b && isQuote c then some [a, b, c] else none
  | _, _, _ => none

/-- Start index of the first occurrence of `lit` at or after `i`. -/
def findLit (t lit : List Char) (i : Nat) : Option Nat :=
  searchFrom t (fun j => (litAt t lit j).map (fun _ => j)) i

/-- Regex `sh\s+([\"']{3})([\s\S]*?)\1`: a triple-quoted shell block, closed
by the same three quote characters (lazy body). -/
def shTripleAt (t : List Char) (i : Nat) : Option (List Char × Nat) := do
  let j ← litAt t "sh".data i
  let j ← ws1 t j
  let q ← threeQuotesAt t j
  let p ← findLit t q (j + 3)
  pure (seg t (j + 3) p, p + 3)

/-- Regex `\becho\s+['\"]([^'\"]+)['\"]` (leading word boundary only). -/
def echoAt (t : List Char) (i : Nat) : Option (List Char × Nat) :=
  let beforeOk : Bool :=
    match i with
    | 0 => true
    | Nat.succ i' =>
      match t.get? i' with
      | some c => !isWordChar c
      | none => true
  if beforeOk then do
    let j ← litAt t "echo".data i
    let j ← ws1 t j
    quotedAt t j
  else none

/-- Converter.py `extract_steps_commands` (lines 245-259): prefer the `steps`
block, strip comments, then collect triple-quoted shell blocks, single-line
shell commands, and echo statements, in that order. -/
def extract_steps_commands (stage_body : List Char) : List String :=
  let search_zone :=
    match find_block stage_body "steps".data with
    | some (s, e) => seg stage_body s e
    | none => stage_body
  let zone := strip_comments search_zone
  ((finditer zone (shTripleAt zone)).flatMap multiline_to_commands).map String.mk
    ++ (finditer zone (shSingleAt zone)).map (fun c => String.mk (pstrip c))
    ++ (finditer zone (echoAt zone)).map (fun m => String.mk ("echo ".data ++ pstrip m))

/-- Regex `label\s+['\"]([^'\"]+)['\"]`. -/
def labelAt (t : List Char) (i : Nat) : Option (List Char × Nat) := do
  let j ← litAt t "label".data i
  let j ← ws1 t j
  quotedAt t j

/-- Regex `image\s+['\"]([^'\"]+)['\"]`. -/
def imageAt (t : List Char) (i : Nat) : Option (List Char × Nat) := do
  let j ← litAt t "image".data i
  let j ← ws1 t j
  quotedAt t j

/-- Regex `args\s+['\"]([^'\"]+)['\"]`. -/
def argsAt (t : List Char) (i : Nat) : Option (List Char × Nat) := do
  let j ← litAt t "args".data i
  let j ← ws1 t j
  quotedAt t j

/-- Regex `branch\s+['\"]([^'\"]+)['\"]`. -/
def branchAt (t : List Char) (i : Nat) : Option (List Char × Nat) := do
  let j ← litAt t "branch".data i
  let j ← ws1 t j
  quotedAt t j

/-- Jenkins `AgentSpec`: Converter.py represents it as a dict with a `type`
key; absence (the empty dict) is `Option.none` at use sites. -/
inductive Agent
  | any
  | label (l : String)
  | docker (image : String) (args : Option String)
deriving DecidableEq, Repr

/-- Shared body of `extract_global_agent` / `extract_stage_agent`
(lines 113-168): `any` beats `label` beats a `docker` block with an `image`. -/
def agentFromBody (body : List Char) : Option Agent :=
  if (searchWord body "any".data).isSome then some .any
  else
    match searchFrom body (labelAt body) 0 with
    | some (l, _) => some (.label (String.mk (pstrip l)))
    | none =>
      match find_block body "docker".data with
      | some (ds, de) =>
        let dbody := seg body ds de
        match searchFrom dbody (imageAt dbody) 0 with
        | some (img, _) =>
          some (.docker (String.mk (pstrip img))
            ((searchFrom dbody (argsAt dbody) 0).map (fun p => String.mk (pstrip p.1))))
        | none => none
      | none => none

/-- Converter.py `extract_global_agent` (lines 113-146). -/
def extract_global_agent (pipeline_body : List Char) : Option Agent :=
  match find_block pipeline_body "agent".data with
  | none => none
  | some (s, e) => agentFromBody (seg pipeline_body s e)

/-- Converter.py `extract_stage_agent` (lines 148-168); same recognition
logic as the global extractor, applied to a stage body. -/
def extract_stage_agent (stage_body : List Char) : Option Agent :=
  match find_block stage_body "agent".data with
  | none => none
  | some (s, e) => agentFromBody (seg stage_body s e)

/-- A GitHub Actions `runs-on` value: a hosted-runner string or a
self-hosted label array. -/
inductive RunsOn
  | str (s : String)
  | labels (ls : List String)
deriving DecidableEq, Repr

/-- Converter.py `map_label_to_runs_on` (lines 170-181). -/
def map_label_to_runs_on (label : String) : RunsOn :=
  let normalized := String.mk (plower (pstrip label.data))
  if normalized = "ubuntu" ∨ normalized = "ubuntu-latest" then .str "ubuntu-latest"
  else if normalized = "windows" ∨ normalized = "windows-latest" then .str "windows-latest"
  else if normalized = "mac" ∨ normalized = "macos" ∨ normalized = "macos-latest" then
    .str "macos-latest"
  else .labels ["self-hosted", label]

/-- One line of an `environment` block: regex
`([A-Za-z_][A-Za-z0-9_]*)\s*=\s*(.+)` anchored at the start of the stripped
line, with matching surrounding quotes removed from the value. -/
def envLineKV (line : List Char) : Option (String × String) :=
  match line.head? with
  | none => none
  | some c =>
    if c.isAlpha || c == '_' then
      let keyLen := (line.takeWhile (fun c => c.isAlphanum || c == '_')).length
      let key := line.take keyLen
      let j := skipWs line keyLen
      match line.get? j with
      | some '=' =>
        let v := pstrip (line.drop (skipWs line (j + 1)))
        if v.isEmpty then none
        else
          let v :=
            if (v.head? = some '\x27' ∧ v.getLast? = some '\x27')
                ∨ (v.head? = some '"' ∧ v.getLast? = some '"') then
              (v.drop 1).dropLast
            else v
          some (String.mk key, String.mk v)
      | _ => none
    else none

/-- Converter.py `extract_env_kv` (lines 185-198). -/
def extract_env_kv (env_body : List Char) : List (String × String) :=
  (splitLines env_body).foldl
    (fun env rawLine =>
      let line := pstrip rawLine
      if line.isEmpty then env
      else if line.head? = some '#' then env
      else
        match envLineKV line with
        | some (k, v) => dictInsert env k v
        | none => env)
    []

/-- Converter.py `extract_stage_environment` (lines 235-239). -/
def extract_stage_environment (stage_body : List Char) : List (String × String) :=
  match find_block stage_body "environment".data with
  | none => []
  | some (s, e) => extract_env_kv (seg stage_body s e)

/-- Converter.py `extract_stage_when_branch` (lines 227-233). -/
def extract_stage_when_branch (stage_body : List Char) : String :=
  match find_block stage_body "when".data with
  | none => ""
  | some (s, e) =>
    let when_body := seg stage_body s e
    match searchFrom when_body (branchAt when_body) 0 with
    | some (b, _) => String.mk b
    | none => ""

/-- Converter.py `extract_parallel` (lines 308-313). -/
def extract_parallel (stage_body : List Char) : List RawStage :=
  match find_block stage_body "parallel".data with
  | none => []
  | some (ps, pe) => split_stages (seg stage_body ps pe)

/-- Regex `archiveArtifacts\s*\(\s*artifacts\s*:\s*['\"]([^'\"]+)['\"]`. -/
def archiveAt (t : List Char) (i : Nat) : Option (List Char × Nat) := do
  let j ← litAt t "archiveArtifacts".data i
  let j := skipWs t j
  let j ← chAt t '(' j
  let j := skipWs t j
  let j ← litAt t "artifacts".data j
  let j := skipWs t j
  let j ← chAt t ':' j
  let j := skipWs t j
  quotedAt t j

/-- Regex `mail\s+to\s*:\s*['\"]([^'\"]+)['\"]`. -/
def mailAt (t : List Char) (i : Nat) : Option (List Char × Nat) := do
  let j ← litAt t "mail".data i
  let j ← ws1 t j
  let j ← litAt t "to".data j
  let j := skipWs t j
  let j ← chAt t ':' j
  let j := skipWs t j
  quotedAt t j

/-- The record collected for one post-outcome kind (`_collect`, lines
270-294): optional archive glob, commands, optional mail target. -/
structure PostData where
  archive : Option String
  commands : List String
  mailTo : Option String
deriving DecidableEq, Repr

/-- Python dict truthiness of a `_collect` result. -/
def postDataNonempty (pd : PostData) : Bool :=
  pd.archive.isSome || !pd.commands.isEmpty || pd.mailTo.isSome

/-- Converter.py `_collect` (lines 270-294) for one outcome kind inside a
post body. -/
def collectPost (post_body : List Char) (kind : String) : PostData :=
  match find_block post_body kind.data with
  | none => ⟨none, [], none⟩
  | some (ks, ke) =>
    let kbody := seg post_body ks ke
    { archive := (searchFrom kbody (archiveAt kbody) 0).map (fun p => String.mk (pstrip p.1))
      commands :=
        (finditer kbody (shSingleAt kbody)).map (fun c => String.mk (pstrip c))
          ++ ((finditer kbody (shTripleAt kbody)).flatMap multiline_to_commands).map String.mk
          ++ (finditer kbody (echoAt kbody)).map (fun m => String.mk ("echo ".data ++ pstrip m))
      mailTo := (searchFrom kbody (mailAt kbody) 0).map (fun p => String.mk (pstrip p.1)) }

/-- The four recognized post-outcome kinds, in source order. -/
def postKinds : List String := ["always", "success", "failure", "cleanup"]

/-- Converter.py `_extract_post_body` (lines 263-300): one entry per outcome
kind whose collected record is nonempty. -/
def extract_post_body (body : List Char) : List (String × PostData) :=
  match find_block body "post".data with
  | none => []
  | some (ps, pe) =>
    let post_body := seg body ps pe
    postKinds.filterMap (fun kind =>
      if postDataNonempty (collectPost post_body kind) then
        some (kind, collectPost post_body kind)
      else none)

/-- Converter.py `extract_stage_post` (lines 302-303). -/
def extract_stage_post (stage_body : List Char) : List (String × PostData) :=
  extract_post_body stage_body

/-- Converter.py `extract_pipeline_post` (lines 305-306). -/
def extract_pipeline_post (pipeline_body : List Char) : List (String × PostData) :=
  extract_post_body pipeline_body

/-- Regex head `kw\s*\(\s*name\s*:\s*` shared by the three parameter
patterns (lines 75, 86, 97). -/
def paramPrologAt (t kw : List Char) (i : Nat) : Option Nat := do
  let j ← litAt t kw i
  let j := skipWs t j
  let j ← chAt t '(' j
  let j := skipWs t j
  let j ← litAt t "name".data j
  let j := skipWs t j
  let j ← chAt t ':' j
  let j := skipWs t j
  pure j

/-- Optional group `(?:,\s*defaultValue\s*:\s*['\"]([^'\"]*)['\"])?`. -/
def optDefaultValueStrAt (t : List Char) (i : Nat) : Option (List Char) × Nat :=
  match (do
    let j ← chAt t ',' i
    let j := skipWs t j
    let j ← litAt t "defaultValue".data j
    let j := skipWs t j
    let j ← chAt t ':' j
    let j := skipWs t j
    quotedAt0 t j : Option (List Char × Nat)) with
  | some (v, j) => (some v, j)
  | none => (none, i)

/-- Optional group `(?:,\s*defaultValue\s*:\s*(true|false))?`. -/
def optDefaultValueBoolAt (t : List Char) (i : Nat) : Option Bool × Nat :=
  match (do
    let j ← chAt t ',' i
    let j := skipWs t j
    let j ← litAt t "defaultValue".data j
    let j := skipWs t j
    let j ← chAt t ':' j
    let j := skipWs t j
    match litAt t "true".data j with
    | some j' => some (true, j')
    | none =>
      match litAt t "false".data j with
      | some j' => some (false, j')
      | none => none : Option (Bool × Nat)) with
  | some (b, j) => (some b, j)
  | none => (none, i)

/-- Optional group `(?:,\s*choices\s*:\s*\[([^\]]+)\])?`. -/
def optChoicesAt (t : List Char) (i : Nat) : Option (List Char) × Nat :=
  match (do
    let j ← chAt t ',' i
    let j := skipWs t j
    let j ← litAt t "choices".data j
    let j := skipWs t j
    let j ← chAt t ':' j
    let j := skipWs t j
    let j ← chAt t '[' j
    let stop := j + ((t.drop j).takeWhile (fun c => c != ']')).length
    if stop = j then none
    else
      match t.get? stop with
      | some ']' => some (seg t j stop, stop + 1)
      | _ => none : Option (List Char × Nat)) with
  | some (v, j) => (some v, j)
  | none => (none, i)

/-- Optional group `(?:,\s*description\s*:\s*['\"]([^'\"]*)['\"])?`. -/
def optDescriptionAt (t : List Char) (i : Nat) : Option (List Char) × Nat :=
  match (do
    let j ← chAt t ',' i
    let j := skipWs t j
    let j ← litAt t "description".data j
    let j := skipWs t j
    let j ← chAt t ':' j
    let j := skipWs t j
    quotedAt0 t j : Option (List Char × Nat)) with
  | some (v, j) => (some v, j)
  | none => (none, i)

/-- The full `string(...)` parameter pattern (line 75). -/
def stringParamAt (t : List Char) (i : Nat) :
    Option ((List Char × Option (List Char) × Option (List Char)) × Nat) := do
  let j ← paramPrologAt t "string".data i
  let (name, j) ← quotedAt t j
  let (dv, j) := optDefaultValueStrAt t j
  let (ds, j) := optDescriptionAt t j
  pure ((name, dv, ds), j)

/-- The full `booleanParam(...)` pattern (line 86). -/
def booleanParamAt (t : List Char) (i : Nat) :
    Option ((List Char × Option Bool × Option (List Char)) × Nat) := do
  let j ← paramPrologAt t "booleanParam".data i
  let (name, j) ← quotedAt t j
  let (dv, j) := optDefaultValueBoolAt t j
  let (ds, j) := optDescriptionAt t j
  pure ((name, dv, ds), j)

/-- The full `choice(...)` pattern (line 97). -/
def choiceParamAt (t : List Char) (i : Nat) :
    Option ((List Char × Option (List Char) × Option (List Char)) × Nat) := do
  let j ← paramPrologAt t "choice".data i
  let (name, j) ← quotedAt t j
  let (cs, j) := optChoicesAt t j
  let (ds, j) := optDescriptionAt t j
  pure ((name, cs, ds), j)

/-- Split on commas (Python `str.split(',')`). -/
def splitCommas : List Char → List (List Char)
  | [] => [[]]
  | ',' :: rest => [] :: splitCommas rest
  | c :: rest =>
    match splitCommas rest with
    | [] => [[c]]
    | l :: ls => (c :: l) :: ls

/-- Line 101: `[c.strip().strip('\x27\"') for c in choices_str.split(',') if c.strip()]`. -/
def parseChoices (l : List Char) : List String :=
  ((splitCommas l).filter (fun c => !(pstrip c).isEmpty)).map
    (fun c => String.mk (pstripSet isQuote (pstrip c)))

/-- A pipeline parameter declaration (`params[name]` dict, lines 79-107). -/
inductive ParamSpec
  | str (defaultVal : String) (description : String)
  | bool (defaultVal : Bool) (description : String)
  | choice (options : List String) (defaultVal : String) (description : String)
deriving DecidableEq, Repr

/-- Converter.py `extract_parameters` (lines 65-109): scan the parameters
block with the three kind patterns in source order, inserting each named
declaration; a declaration that does not match (e.g. lacks `name:`) is simply
never collected. -/
def extract_parameters (pipeline_body : List Char) : List (String × ParamSpec) :=
  match find_block pipeline_body "parameters".data with
  | none => []
  | some (s, e) =>
    let param_body := seg pipeline_body s e
    let ps := (finditer param_body (stringParamAt param_body)).foldl
      (fun ps p =>
        dictInsert ps (String.mk p.1)
          (.str (String.mk (p.2.1.getD [])) (String.mk (p.2.2.getD [])))) []
    let ps := (finditer param_body (booleanParamAt param_body)).foldl
      (fun ps p =>
        dictInsert ps (String.mk p.1)
          (.bool (p.2.1.getD false) (String.mk (p.2.2.getD [])))) ps
    (finditer param_body (choiceParamAt param_body)).foldl
      (fun ps p =>
        let choices := parseChoices (p.2.1.getD [])
        dictInsert ps (String.mk p.1)
          (.choice choices (choices.headD "") (String.mk (p.2.2.getD [])))) ps

/-- A workflow or composite-action step.  Each Python step dict populates a
subset of these fields; an empty list or `none` models an absent key. -/
structure Step where
  name : Option String := none
  ifCond : Option String := none
  uses : Option String := none
  withArgs : List (String × String) := []
  run : Option String := none
  shell : Option String := none
  env : List (String × String) := []
deriving DecidableEq, Repr

/-- The constant first step of every job (line 542 / 603 / 646 / 670). -/
def checkoutStep : Step := { uses := some "actions/checkout@v4" }

/-- The `needs` key of a job: absent, a single job id string, or a list of
job ids — the source uses both scalar and list forms. -/
inductive Needs
  | noNeeds
  | single (j : String)
  | many (js : List String)
deriving DecidableEq, Repr

/-- The dependency set denoted by a `needs` value. -/
def needsList : Needs → List String
  | .noNeeds => []
  | .single j => [j]
  | .many js => js

/-- A GHA `container:` entry. -/
structure Container where
  image : String
  options : Option String := none
deriving DecidableEq, Repr

/-- One job of the compiled workflow (`job_def` dicts in the source). -/
structure JobDef where
  name : Option String := none
  runsOn : RunsOn := .str "ubuntu-latest"
  container : Option Container := none
  env : List (String × String) := []
  ifCond : Option String := none
  needs : Needs := .noNeeds
  steps : List Step := []
deriving DecidableEq, Repr

/-- The per-stage record appended to `stages_info` (lines 583-589, 622-628). -/
structure StageInfo where
  name : String
  commands : List String
  env : List (String × String)
  agent : Option Agent
  post : List (String × PostData)
deriving DecidableEq, Repr

/-- A declared input of a composite action. -/
structure ActionInput where
  description : String
  required : Bool
  defaultVal : String
deriving DecidableEq, Repr

/-- A composite action document (`action_def`, lines 320-328); the constant
`runs.using = "composite"` key is implicit. -/
structure ActionDef where
  name : String
  description : String
  inputs : List (String × ActionInput)
  steps : List Step
deriving DecidableEq, Repr

/-- Python `env_key.lower().replace('_', '-')` (lines 332, 349, 552). -/
def kebabKey (k : String) : String :=
  String.mk (k.data.map (fun c => if c = '_' then '-' else c.toLower))

/-- The command steps of a composite action (lines 342-350). -/
def mainCommandSteps (commands : List String) (stage_env : List (String × String)) :
    List Step :=
  commands.mapIdx (fun i cmd =>
    { name := some ("Run command " ++ toString (i + 1))
      run := some cmd
      shell := some "bash"
      env :=
        if stage_env.isEmpty then []
        else stage_env.map (fun p =>
          (p.1, "$\x7b\x7b inputs." ++ kebabKey p.1 ++ " \x7d\x7d")) })

/-- The guarded post steps a composite action emits for one outcome kind
(lines 354-373). -/
def stagePostKindSteps (stage_name kind : String) (pd : PostData) : List Step :=
  (match pd.archive with
   | some g =>
     [{ name := some ("Upload artifacts (" ++ kind ++ ")")
        ifCond := some (kind ++ "()")
        uses := some "actions/upload-artifact@v4"
        withArgs := [("name", String.mk (sanitize_name stage_name.data) ++ "-" ++ kind ++ "-artifacts"),
                     ("path", g)] }]
   | none => [])
  ++ pd.commands.map (fun cmd =>
      { name := some ("Post " ++ kind), ifCond := some (kind ++ "()"),
        run := some cmd, shell := some "bash" })

/-- The outcome kinds iterated for stage-level post steps (line 353) — note
the source omits `cleanup` here. -/
def stagePostIterKinds : List String := ["always", "success", "failure"]

/-- All post steps of a composite action (lines 353-373). -/
def stagePostSteps (stage_name : String) (post_info : List (String × PostData)) :
    List Step :=
  (stagePostIterKinds.map (fun kind =>
    match dictGet? post_info kind with
    | some pd => stagePostKindSteps stage_name kind pd
    | none => [])).flatten

/-- Converter.py `generate_composite_action` (lines 317-376). -/
def generate_composite_action (stage_name : String) (commands : List String)
    (stage_env : List (String × String)) (stage_agent : Option Agent)
    (post_info : List (String × PostData)) : ActionDef :=
  { name := stage_name ++ " Action"
    description := "Composite action for " ++ stage_name ++ " stage"
    inputs := stage_env.map (fun p =>
      (kebabKey p.1,
       { description := "Environment variable " ++ p.1, required := false, defaultVal := p.2 }))
    steps := mainCommandSteps commands stage_env ++ stagePostSteps stage_name post_info }

/-- One entry of the `action_paths` list (lines 403-408). -/
structure ActionPath where
  name : String
  path : String
  env : List (String × String)
deriving DecidableEq, Repr

/-- Line 387: `sanitize_name(stage_name.lower())`. -/
def action_name_of (stage_name : String) : String :=
  String.mk (sanitize_name (plower stage_name.data))

/-- Converter.py `save_composite_actions` (lines 378-410): the written
`action.yml` documents (path and content) and the `action_paths` records. -/
def save_composite_actions (stages_info : List StageInfo) (output_dir : String) :
    List (String × ActionDef) × List ActionPath :=
  (stages_info.map (fun si =>
      (output_dir ++ "/.github/actions/" ++ action_name_of si.name ++ "/action.yml",
       generate_composite_action si.name si.commands si.env si.agent si.post)),
   stages_info.map (fun si =>
      { name := si.name, path := "./.github/actions/" ++ action_name_of si.name, env := si.env }))

/-- Converter.py `create_job_steps_with_composite` (lines 540-555). -/
def create_job_steps_with_composite (stage_name action_path : String)
    (stage_env : List (String × String)) : List Step :=
  [checkoutStep,
   { name := some ("Run " ++ stage_name)
     uses := some action_path
     withArgs :=
       if stage_env.isEmpty then []
       else stage_env.map (fun p => (kebabKey p.1, "$\x7b\x7b env." ++ p.1 ++ " \x7d\x7d")) }]

/-- Converter.py `apply_agent_to_job` (lines 520-538): the `runs-on` and
`container` part of a job definition. -/
def apply_agent_to_job (defR : RunsOn) (defC : Option Container)
    (stage_agent : Option Agent) : JobDef :=
  match stage_agent with
  | none => { runsOn := defR, container := defC }
  | some .any => { runsOn := .str "ubuntu-latest" }
  | some (.label l) => { runsOn := map_label_to_runs_on l }
  | some (.docker img args) =>
    { runsOn := .str "ubuntu-latest", container := some { image := img, options := args } }

/-- The loop body of `compute_job_env` (line 516): keep the pair when its key
is absent from the global environment or bound to a different value. -/
def envDiffStep (global_env : List (String × String)) (out : List (String × String)) :
    String × String → List (String × String)
  | (k, v) => if dictGet? global_env k ≠ some v then dictInsert out k v else out

/-- Converter.py `compute_job_env` (lines 508-518): keep only stage keys that
are absent from or differ from the global environment. -/
def compute_job_env (global_env stage_env : List (String × String)) :
    List (String × String) :=
  if stage_env.isEmpty then []
  else if global_env.isEmpty then stage_env
  else stage_env.foldl (envDiffStep global_env) []

/-- The stage data pushed onto `stages_info` for one stage or parallel child. -/
def stageInfoOf (name : String) (body : List Char) : StageInfo :=
  { name := name
    commands := extract_steps_commands body
    env := extract_stage_environment body
    agent := extract_stage_agent body
    post := extract_stage_post body }

/-- Lines 577-578 / 616-617: the branch guard as a runtime conditional. -/
def branchIfCond (body : List Char) : Option String :=
  let branch := extract_stage_when_branch body
  if branch = "" then none
  else some ("github.ref == \x27refs/heads/" ++ branch ++ "\x27")

/-- The mutable compilation state of the stage loop (lines 504-506). -/
structure ConvState where
  jobs : List (String × JobDef)
  stagesInfo : List StageInfo
  lastJobIds : List String
  prevJobId : String
deriving Repr

/-- The state before the first stage is processed. -/
def initConvState : ConvState := ⟨[], [], [], ""⟩

/-- The `needs` value of a sequential stage (lines 639-643). -/
def seqNeeds (st : ConvState) : Needs :=
  match st.lastJobIds with
  | [] => if st.prevJobId ≠ "" then .single st.prevJobId else .noNeeds
  | l => .many l

/-- Line 565: `upstream = prev_job_id or (last_job_ids[-1] if last_job_ids
else None)`. -/
def parUpstream (st : ConvState) : Option String :=
  if st.prevJobId ≠ "" then some st.prevJobId else st.lastJobIds.getLast?

/-- Lines 599-600: a parallel child's `needs` (set only when `upstream` is
truthy). -/
def parNeeds (upstream : Option String) : Needs :=
  match upstream with
  | some u => if u = "" then .noNeeds else .single u
  | none => .noNeeds

/-- The job definition built for a sequential stage (lines 611-646). -/
def seqJobDef (genv : List (String × String)) (defR : RunsOn) (defC : Option Container)
    (st : ConvState) (stage : RawStage) : JobDef :=
  { apply_agent_to_job defR defC (extract_stage_agent stage.content) with
    env := compute_job_env genv (extract_stage_environment stage.content)
    ifCond := branchIfCond stage.content
    needs := seqNeeds st
    steps := [checkoutStep] }

/-- The job definition built for one parallel child (lines 568-605). -/
def parChildJobDef (genv : List (String × String)) (defR : RunsOn) (defC : Option Container)
    (upstream : Option String) (sub : RawStage) : JobDef :=
  { apply_agent_to_job defR defC (extract_stage_agent sub.content) with
    env := compute_job_env genv (extract_stage_environment sub.content)
    ifCond := branchIfCond sub.content
    needs := parNeeds upstream
    steps := [checkoutStep] }

/-- One iteration of the stage loop (lines 558-649). -/
def processOneStage (genv : List (String × String)) (defR : RunsOn) (defC : Option Container)
    (st : ConvState) (stage : RawStage) : ConvState :=
  match extract_parallel stage.content with
  | [] =>
    { jobs := dictInsert st.jobs (gha_job_id stage.name) (seqJobDef genv defR defC st stage)
      stagesInfo := st.stagesInfo ++ [stageInfoOf stage.name stage.content]
      lastJobIds := []
      prevJobId := gha_job_id stage.name }
  | subs =>
    let upstream := parUpstream st
    { jobs := subs.foldl (fun jobs sub =>
        dictInsert jobs (gha_job_id sub.name) (parChildJobDef genv defR defC upstream sub)) st.jobs
      stagesInfo := st.stagesInfo ++ subs.map (fun sub => stageInfoOf sub.name sub.content)
      lastJobIds := subs.map (fun sub => gha_job_id sub.name)
      prevJobId := "" }

/-- The whole stage loop, started from the initial compilation state. -/
def processStages (genv : List (String × String)) (defR : RunsOn) (defC : Option Container)
    (stages : List RawStage) : ConvState :=
  stages.foldl (processOneStage genv defR defC) initConvState

/-- Lines 655-666: replace each job's placeholder steps with composite-action
steps, pairing jobs and `action_paths` by position (a job with no
action-path partner keeps its placeholder steps). -/
def updateJobSteps : List (String × JobDef) → List ActionPath → List (String × JobDef)
  | [], _ => []
  | jobs, [] => jobs
  | (k, jd) :: jobs, ap :: aps =>
    (k, { jd with steps := create_job_steps_with_composite ap.name ap.path ap.env })
      :: updateJobSteps jobs aps

/-- Python `"\n".join(...)` (line 686). -/
def joinLines (cmds : List String) : String := String.intercalate "\n" cmds

/-- The pipeline-post steps for one outcome kind (lines 673-693). -/
def pipelinePostStepsFor (kind : String) (pd : PostData) : List Step :=
  (match pd.archive with
   | some g =>
     [{ name := some ("Upload artifacts (" ++ kind ++ ")")
        ifCond := some (kind ++ "()")
        uses := some "actions/upload-artifact@v4"
        withArgs := [("name", "pipeline-" ++ kind ++ "-artifacts"), ("path", g)] }]
   | none => [])
  ++ (if pd.commands.isEmpty then []
      else [{ name := some ("Pipeline post " ++ kind), ifCond := some (kind ++ "()"),
              run := some (joinLines pd.commands) }])
  ++ (match pd.mailTo with
      | some m =>
        [{ name := some ("Notify on " ++ kind), ifCond := some (kind ++ "()"),
           run := some ("echo \"Replace with mail action to: " ++ m ++ "\"") }]
      | none => [])

/-- All pipeline-post steps after the checkout step (lines 672-693). -/
def pipelinePostSteps (post : List (String × PostData)) : List Step :=
  (postKinds.map (fun kind =>
    match dictGet? post kind with
    | some pd => pipelinePostStepsFor kind pd
    | none => [])).flatten

/-- Lines 668-706: append the synthetic `pipeline-post` job when pipeline
post-hooks produced at least one step. -/
def addPipelinePost (pipeline_post : List (String × PostData)) (defR : RunsOn)
    (defC : Option Container) (jobs : List (String × JobDef)) : List (String × JobDef) :=
  if pipeline_post.isEmpty then jobs
  else
    let post_job_steps := checkoutStep :: pipelinePostSteps pipeline_post
    if post_job_steps.length > 1 then
      let all_jobs := (jobs.map Prod.fst).filter (fun k => k ≠ "pipeline-post")
      dictInsert jobs "pipeline-post"
        { name := some "Pipeline Post", runsOn := defR, container := defC,
          needs := .many all_jobs, ifCond := some "always()", steps := post_job_steps }
    else jobs

/-- Lines 443-454: the default run target and container from the global
agent. -/
def defaultsFromAgent (global_agent : Option Agent) : RunsOn × Option Container :=
  match global_agent with
  | none => (.str "ubuntu-latest", none)
  | some .any => (.str "ubuntu-latest", none)
  | some (.label l) => (map_label_to_runs_on l, none)
  | some (.docker img args) => (.str "ubuntu-latest", some { image := img, options := args })

/-- A workflow-dispatch input default is a string or a boolean. -/
inductive ParamDefault
  | s (v : String)
  | b (v : Bool)
deriving DecidableEq, Repr

/-- One `workflow_dispatch` input (lines 460-482). -/
structure WorkflowInput where
  description : String
  required : Bool
  defaultVal : ParamDefault
  type : String
  options : Option (List String) := none
deriving DecidableEq, Repr

/-- Lines 457-482: build `workflow_inputs` from the extracted parameters. -/
def buildWorkflowInputs (parameters : List (String × ParamSpec)) :
    List (String × WorkflowInput) :=
  parameters.map (fun p =>
    match p.2 with
    | .str dv ds =>
      (p.1, { description := if ds = "" then "Parameter " ++ p.1 else ds,
              required := false, defaultVal := .s dv, type := "string" })
    | .bool dv ds =>
      (p.1, { description := if ds = "" then "Parameter " ++ p.1 else ds,
              required := false, defaultVal := .b dv, type := "boolean" })
    | .choice opts dv ds =>
      (p.1, { description := if ds = "" then "Parameter " ++ p.1 else ds,
              required := false, defaultVal := .s dv, type := "choice",
              options := some opts }))

/-- The compiled workflow document (`gha` dict).  `push`/`pull_request`
triggers are unconditional; an empty `env` list models an absent `env` key. -/
structure Workflow where
  name : String
  onPushBranches : List String
  onPullRequest : Bool
  workflowDispatchInputs : Option (List (String × WorkflowInput))
  env : List (String × String)
  jobs : List (String × JobDef)
deriving DecidableEq, Repr

/-- Everything the converter produces: the workflow document and the written
composite-action documents (output path and content). -/
structure ConvertOutput where
  gha : Workflow
  written : List (String × ActionDef)
deriving DecidableEq, Repr

/-- Converter.py `convert_jenkins_to_gha` (lines 416-708).  The two
`raise ValueError` aborts are `Except.error`; everything else follows the
source in order. -/
def convert_jenkins_to_gha (jenkins_text : String) (output_dir : String) :
    Except String ConvertOutput :=
  let text := strip_comments jenkins_text.data
  match find_block text "pipeline".data with
  | none =>
    .error "Not a declarative Jenkins pipeline (no \x27pipeline \x7b ... \x7d\x27 found)."
  | some (ps, pe) =>
    let pipeline_body := seg text ps pe
    let global_agent := extract_global_agent pipeline_body
    let parameters := extract_parameters pipeline_body
    let global_env :=
      match find_block pipeline_body "environment".data with
      | some (es, ee) => extract_env_kv (seg pipeline_body es ee)
      | none => []
    match find_block pipeline_body "stages".data with
    | none => .error "No \x27stages \x7b ... \x7d\x27 found."
    | some (ss, se) =>
      let stages_list := split_stages (seg pipeline_body ss se)
      let pipeline_post := extract_pipeline_post pipeline_body
      let dflt := defaultsFromAgent global_agent
      let workflow_inputs := buildWorkflowInputs parameters
      let workflow_env := global_env
      let st := processStages global_env dflt.1 dflt.2 stages_list
      let saved := save_composite_actions st.stagesInfo output_dir
      let jobs2 := updateJobSteps st.jobs saved.2
      let jobs3 := addPipelinePost pipeline_post dflt.1 dflt.2 jobs2
      .ok { gha := { name := "CI"
                     onPushBranches := ["master", "main"]
                     onPullRequest := true
                     workflowDispatchInputs :=
                       if workflow_inputs.isEmpty then none else some workflow_inputs
                     env := workflow_env
                     jobs := jobs3 }
            written := saved.1 }

/-- The emitted documents, independent of where they are written: the
workflow and the composite-action contents. -/
def emittedDocs (r : Except String ConvertOutput) :
    Except String (Workflow × List ActionDef) :=
  r.map (fun o => (o.gha, o.written.map Prod.snd))

/-! Helper lemmas about the dict operations and the stage loop. -/

theorem dictGet?_insert_self (m : List (String × α)) (k : String) (v : α) :
    dictGet? (dictInsert m k v) k = some v := by
  induction m with
  | nil => simp [dictInsert, dictGet?]
  | cons p rest ih =>
    obtain ⟨k', v'⟩ := p
    by_cases h : k' = k
    · simp [dictInsert, dictGet?, h]
    · simp [dictInsert, dictGet?, h, ih]

theorem dictGet?_insert_ne (m : List (String × α)) (k k' : String) (v : α)
    (h : k' ≠ k) : dictGet? (dictInsert m k v) k' = dictGet? m k' := by
  induction m with
  | nil => simp [dictInsert, dictGet?, if_neg (Ne.symm h)]
  | cons p rest ih =>
    obtain ⟨k0, v0⟩ := p
    simp only [dictInsert]
    by_cases h0 : k0 = k
    · subst h0
      simp only [if_pos rfl, dictGet?, if_neg (Ne.symm h)]
    · simp only [if_neg h0, dictGet?, ih]

theorem dictInsert_keys_mem (m : List (String × α)) (k : String) (v : α) (k' : String) :
    k' ∈ (dictInsert m k v).map Prod.fst ↔ k' ∈ m.map Prod.fst ∨ k' = k := by
  induction m with
  | nil => simp [dictInsert]
  | cons p rest ih =>
    obtain ⟨k0, v0⟩ := p
    by_cases h0 : k0 = k
    · subst h0
      simp [dictInsert]
      tauto
    · simp [dictInsert, h0, ih]
      tauto

theorem dictInsert_keys_nodup (m : List (String × α)) (k : String) (v : α)
    (h : (m.map Prod.fst).Nodup) : ((dictInsert m k v).map Prod.fst).Nodup := by
  induction m with
  | nil => simp [dictInsert]
  | cons p rest ih =>
    obtain ⟨k0, v0⟩ := p
    simp only [List.map_cons, List.nodup_cons] at h
    simp only [dictInsert]
    by_cases h0 : k0 = k
    · subst h0
      rw [if_pos rfl]
      simp only [List.map_cons, List.nodup_cons]
      exact h
    · rw [if_neg h0]
      simp only [List.map_cons, List.nodup_cons]
      refine ⟨fun hc => ?_, ih h.2⟩
      rw [dictInsert_keys_mem] at hc
      rcases hc with hc | hc
      · exact h.1 hc
      · exact h0 hc

theorem gha_job_id_ne_empty (name : String) : gha_job_id name ≠ "" := by
  rw [gha_job_id]
  set slug := plower (pstripSet (· == '-') (dashRuns (pstrip name.data))) with hslug
  by_cases h : slug.isEmpty
  · rw [if_pos h]
    decide
  · rw [if_neg h]
    intro hc
    apply h
    have hd : slug = [] := congrArg String.data hc
    rw [hd]
    rfl

theorem processOneStage_seq (genv : List (String × String)) (defR : RunsOn)
    (defC : Option Container) (st : ConvState) (stage : RawStage)
    (h : extract_parallel stage.content = []) :
    processOneStage genv defR defC st stage =
      { jobs := dictInsert st.jobs (gha_job_id stage.name) (seqJobDef genv defR defC st stage)
        stagesInfo := st.stagesInfo ++ [stageInfoOf stage.name stage.content]
        lastJobIds := []
        prevJobId := gha_job_id stage.name } := by
  simp only [processOneStage, h]

theorem processOneStage_par (genv : List (String × String)) (defR : RunsOn)
    (defC : Option Container) (st : ConvState) (stage : RawStage)
    (sub0 : RawStage) (rest : List RawStage)
    (h : extract_parallel stage.content = sub0 :: rest) :
    processOneStage genv defR defC st stage =
      { jobs := (sub0 :: rest).foldl (fun jobs sub =>
          dictInsert jobs (gha_job_id sub.name)
            (parChildJobDef genv defR defC (parUpstream st) sub)) st.jobs
        stagesInfo := st.stagesInfo ++ (sub0 :: rest).map (fun sub => stageInfoOf sub.name sub.content)
        lastJobIds := (sub0 :: rest).map (fun sub => gha_job_id sub.name)
        prevJobId := "" } := by
  simp only [processOneStage, h]

theorem seqJobDef_needs (genv : List (String × String)) (defR : RunsOn)
    (defC : Option Container) (st : ConvState) (stage : RawStage) :
    (seqJobDef genv defR defC st stage).needs = seqNeeds st := by
  cases hag : extract_stage_agent stage.content with
  | none => simp [seqJobDef, apply_agent_to_job, hag]
  | some a => cases a <;> simp [seqJobDef, apply_agent_to_job, hag]

theorem parChildJobDef_needs (genv : List (String × String)) (defR : RunsOn)
    (defC : Option Container) (upstream : Option String) (sub : RawStage) :
    (parChildJobDef genv defR defC upstream sub).needs = parNeeds upstream := by
  cases hag : extract_stage_agent sub.content with
  | none => simp [parChildJobDef, apply_agent_to_job, hag]
  | some a => cases a <;> simp [parChildJobDef, apply_agent_to_job, hag]

/-- C2: a stages block holding only the sequential (non-parallel) stages
A, B, C in that order (with distinct slugs) compiles to the chain A←B←C:
A's job has no dependency, B's job depends only on A's job id, and C's job
depends only on B's job id — each predecessor set is exactly the most
recently completed job. -/
theorem sequential_stages_chain (genv : List (String × String)) (defR : RunsOn)
    (defC : Option Container) (A B C : RawStage)
    (hA : extract_parallel A.content = []) (hB : extract_parallel B.content = [])
    (hC : extract_parallel C.content = [])
    (hab : gha_job_id A.name ≠ gha_job_id B.name)
    (hac : gha_job_id A.name ≠ gha_job_id C.name)
    (hbc : gha_job_id B.name ≠ gha_job_id C.name) :
    (dictGet? (processStages genv defR defC [A, B, C]).jobs (gha_job_id A.name)).map
        (fun j => needsList j.needs) = some [] ∧
    (dictGet? (processStages genv defR defC [A, B, C]).jobs (gha_job_id B.name)).map
        (fun j => needsList j.needs) = some [gha_job_id A.name] ∧
    (dictGet? (processStages genv defR defC [A, B, C]).jobs (gha_job_id C.name)).map
        (fun j => needsList j.needs) = some [gha_job_id B.name] := by
  simp only [processStages, List.foldl]
  rw [processOneStage_seq _ _ _ _ _ hA]
  rw [processOneStage_seq _ _ _ _ _ hB]
  rw [processOneStage_seq _ _ _ _ _ hC]
  refine ⟨?_, ?_, ?_⟩
  · rw [dictGet?_insert_ne _ _ _ _ hac, dictGet?_insert_ne _ _ _ _ hab, dictGet?_insert_self]
    simp [seqJobDef_needs, seqNeeds, initConvState, needsList]
  · rw [dictGet?_insert_ne _ _ _ _ hbc, dictGet?_insert_self]
    simp [seqJobDef_needs, seqNeeds, needsList, gha_job_id_ne_empty A.name]
  · rw [dictGet?_insert_self]
    simp [seqJobDef_needs, seqNeeds, needsList, gha_job_id_ne_empty B.name]

/-- C1: a stages block consisting of a stage A, then a stage holding a
parallel group with children X and Y, then a stage D (distinct slugs)
compiles so that X and Y each depend only on A's job id, D depends exactly
on the pair of X's and Y's job ids, and neither X nor Y depends on the
other. -/
theorem parallel_group_fanout_fanin (genv : List (String × String)) (defR : RunsOn)
    (defC : Option Container) (A P D X Y : RawStage)
    (hA : extract_parallel A.content = [])
    (hP : extract_parallel P.content = [X, Y])
    (hD : extract_parallel D.content = [])
    (hxa : gha_job_id X.name ≠ gha_job_id A.name)
    (hya : gha_job_id Y.name ≠ gha_job_id A.name)
    (hxy : gha_job_id X.name ≠ gha_job_id Y.name)
    (hxd : gha_job_id X.name ≠ gha_job_id D.name)
    (hyd : gha_job_id Y.name ≠ gha_job_id D.name) :
    (dictGet? (processStages genv defR defC [A, P, D]).jobs (gha_job_id X.name)).map
        (fun j => needsList j.needs) = some [gha_job_id A.name] ∧
    (dictGet? (processStages genv defR defC [A, P, D]).jobs (gha_job_id Y.name)).map
        (fun j => needsList j.needs) = some [gha_job_id A.name] ∧
    (dictGet? (processStages genv defR defC [A, P, D]).jobs (gha_job_id D.name)).map
        (fun j => needsList j.needs) = some [gha_job_id X.name, gha_job_id Y.name] ∧
    (∀ jx, dictGet? (processStages genv defR defC [A, P, D]).jobs (gha_job_id X.name) = some jx →
       gha_job_id Y.name ∉ needsList jx.needs) ∧
    (∀ jy, dictGet? (processStages genv defR defC [A, P, D]).jobs (gha_job_id Y.name) = some jy →
       gha_job_id X.name ∉ needsList jy.needs) := by
  simp only [processStages, List.foldl]
  rw [processOneStage_seq _ _ _ _ _ hA]
  rw [processOneStage_par _ _ _ _ _ _ _ hP]
  simp only [List.foldl, List.map]
  rw [processOneStage_seq _ _ _ _ _ hD]
  refine ⟨?_, ?_, ?_, ?_, ?_⟩
  · rw [dictGet?_insert_ne _ _ _ _ hxd, dictGet?_insert_ne _ _ _ _ hxy, dictGet?_insert_self]
    simp [parChildJobDef_needs, parNeeds, parUpstream, needsList,
      gha_job_id_ne_empty A.name]
  · rw [dictGet?_insert_ne _ _ _ _ hyd, dictGet?_insert_self]
    simp [parChildJobDef_needs, parNeeds, parUpstream, needsList,
      gha_job_id_ne_empty A.name]
  · rw [dictGet?_insert_self]
    simp [seqJobDef_needs, seqNeeds, needsList]
  · intro jx hjx
    rw [dictGet?_insert_ne _ _ _ _ hxd, dictGet?_insert_ne _ _ _ _ hxy,
      dictGet?_insert_self] at hjx
    cases hjx
    simp [parChildJobDef_needs, parNeeds, parUpstream, needsList,
      gha_job_id_ne_empty A.name, hya]
  · intro jy hjy
    rw [dictGet?_insert_ne _ _ _ _ hyd, dictGet?_insert_self] at hjy
    cases hjy
    simp [parChildJobDef_needs, parNeeds, parUpstream, needsList,
      gha_job_id_ne_empty A.name, hxa]

/-- C3 (amended): when a parallel group with children U and V immediately
follows a parallel group with children X and Y, each child of the second
group depends only on the job id of the LAST child of the first group (Y),
not on the full set of the first group's job ids: X's job id is absent from
their dependency sets. -/
theorem consecutive_parallel_groups_last_only (genv : List (String × String))
    (defR : RunsOn) (defC : Option Container) (P1 P2 X Y U V : RawStage)
    (hP1 : extract_parallel P1.content = [X, Y])
    (hP2 : extract_parallel P2.content = [U, V])
    (hxy : gha_job_id X.name ≠ gha_job_id Y.name)
    (huv : gha_job_id U.name ≠ gha_job_id V.name) :
    (dictGet? (processStages genv defR defC [P1, P2]).jobs (gha_job_id U.name)).map
        (fun j => needsList j.needs) = some [gha_job_id Y.name] ∧
    (dictGet? (processStages genv defR defC [P1, P2]).jobs (gha_job_id V.name)).map
        (fun j => needsList j.needs) = some [gha_job_id Y.name] ∧
    (∀ ju, dictGet? (processStages genv defR defC [P1, P2]).jobs (gha_job_id U.name) = some ju →
       gha_job_id X.name ∉ needsList ju.needs) := by
  simp only [processStages, List.foldl]
  rw [processOneStage_par _ _ _ _ _ _ _ hP1]
  simp only [List.foldl, List.map]
  rw [processOneStage_par _ _ _ _ _ _ _ hP2]
  simp only [List.foldl, List.map]
  refine ⟨?_, ?_, ?_⟩
  · rw [dictGet?_insert_ne _ _ _ _ huv, dictGet?_insert_self]
    simp [parChildJobDef_needs, parNeeds, parUpstream, needsList, List.getLast?,
      gha_job_id_ne_empty Y.name]
  · rw [dictGet?_insert_self]
    simp [parChildJobDef_needs, parNeeds, parUpstream, needsList, List.getLast?,
      gha_job_id_ne_empty Y.name]
  · intro ju hju
    rw [dictGet?_insert_ne _ _ _ _ huv, dictGet?_insert_self] at hju
    cases hju
    simp [parChildJobDef_needs, parNeeds, parUpstream, needsList, List.getLast?,
      gha_job_id_ne_empty Y.name, hxy]

/-- C10: the conversion is a pure function of the input text — the compiled
workflow document and every emitted step-bundle document are identical
across runs and do not depend on the output directory (which only selects
where the bundle files are placed). -/
theorem converter_deterministic (t d1 d2 : String) :
    emittedDocs (convert_jenkins_to_gha t d1) = emittedDocs (convert_jenkins_to_gha t d2) := by
  simp only [convert_jenkins_to_gha]
  generalize find_block (strip_comments t.data) "pipeline".data = fb
  cases fb with
  | none => rfl
  | some p =>
    obtain ⟨ps, pe⟩ := p
    simp only []
    generalize find_block (seg (strip_comments t.data) ps pe) "stages".data = fb2
    cases fb2 with
    | none => rfl
    | some q =>
      obtain ⟨ss, se⟩ := q
      simp only [emittedDocs, Except.map, save_composite_actions, List.map_map,
        Function.comp]
      rfl

theorem envDiff_foldl_not_mem (genv : List (String × String))
    (senv : List (String × String)) (acc : List (String × String)) (k : String)
    (h : k ∉ senv.map Prod.fst) :
    dictGet? (senv.foldl (envDiffStep genv) acc) k = dictGet? acc k := by
  induction senv generalizing acc with
  | nil => rfl
  | cons p rest ih =>
    obtain ⟨k0, v0⟩ := p
    simp only [List.map_cons, List.mem_cons] at h
    push_neg at h
    simp only [List.foldl_cons]
    rw [ih _ h.2]
    simp only [envDiffStep]
    split
    · exact dictGet?_insert_ne _ _ _ _ h.1
    · rfl

theorem envDiff_foldl_get (genv : List (String × String)) :
    ∀ (senv : List (String × String)) (k v : String),
      (senv.map Prod.fst).Nodup → dictGet? senv k = some v →
      ∀ acc, dictGet? (senv.foldl (envDiffStep genv) acc) k =
        if dictGet? genv k ≠ some v then some v else dictGet? acc k := by
  intro senv
  induction senv with
  | nil =>
    intro k v _ hk acc
    simp [dictGet?] at hk
  | cons p rest ih =>
    intro k v hnd hk acc
    obtain ⟨k0, v0⟩ := p
    simp only [List.map_cons, List.nodup_cons] at hnd
    simp only [List.foldl_cons]
    by_cases h0 : k0 = k
    · subst h0
      have hv : v0 = v := by simpa [dictGet?] using hk
      subst hv
      rw [envDiff_foldl_not_mem genv rest _ _ hnd.1]
      simp only [envDiffStep]
      by_cases hcond : dictGet? genv k0 ≠ some v0
      · rw [if_pos hcond, if_pos hcond, dictGet?_insert_self]
      · rw [if_neg hcond, if_neg hcond]
    · have hk' : dictGet? rest k = some v := by simpa [dictGet?, h0] using hk
      rw [ih k v hnd.2 hk']
      by_cases hc : dictGet? genv k ≠ some v
      · rw [if_pos hc, if_pos hc]
      · rw [if_neg hc, if_neg hc]
        simp only [envDiffStep]
        split
        · exact dictGet?_insert_ne _ _ _ _ (fun he => h0 he.symm)
        · rfl

theorem compute_job_env_get (genv senv : List (String × String)) (k v : String)
    (hnd : (senv.map Prod.fst).Nodup) (hk : dictGet? senv k = some v) :
    dictGet? (compute_job_env genv senv) k =
      if dictGet? genv k ≠ some v then some v else none := by
  unfold compute_job_env
  by_cases hse : senv.isEmpty
  · rw [List.isEmpty_iff] at hse
    subst hse
    simp [dictGet?] at hk
  · rw [if_neg hse]
    by_cases hge : genv.isEmpty
    · rw [if_pos hge]
      rw [List.isEmpty_iff] at hge
      subst hge
      simp [dictGet?, hk]
    · rw [if_neg hge]
      rw [envDiff_foldl_get genv senv k v hnd hk []]
      rfl

/-- C8: a job environment is the stage environment diffed against the global
environment: a stage-level key bound to the same value as the global
environment is omitted, a stage-level key with a different value is
retained, and a stage-level key absent from the global environment is
retained (with its stage value). -/
theorem stage_env_diff (genv senv : List (String × String)) (k v : String)
    (hnd : (senv.map Prod.fst).Nodup) (hk : dictGet? senv k = some v) :
    (dictGet? genv k = some v → dictGet? (compute_job_env genv senv) k = none) ∧
    (∀ w, dictGet? genv k = some w → w ≠ v →
      dictGet? (compute_job_env genv senv) k = some v) ∧
    (dictGet? genv k = none → dictGet? (compute_job_env genv senv) k = some v) := by
  have hmain := compute_job_env_get genv senv k v hnd hk
  refine ⟨fun hg => ?_, fun w hg hwv => ?_, fun hg => ?_⟩
  · rw [hmain, if_neg]
    simp [hg]
  · rw [hmain, if_pos]
    rw [hg]
    intro hc
    exact hwv (by injection hc)
  · rw [hmain, if_pos]
    rw [hg]
    intro hc
    cases hc

/-- A stage body whose post block holds only a `cleanup` hook. -/
def cleanupBody : String :=
  "post \x7b cleanup \x7b sh \x27rm -rf tmp\x27 \x7d \x7d"

set_option maxRecDepth 400000 in
/-- C7 counterexample: the stage post extractor does collect the `cleanup`
hook, yet the emitted step bundle for the stage contains no step at all —
in particular no step set guarded by the cleanup outcome — because
`generate_composite_action` iterates only always/success/failure. -/
theorem stage_post_cleanup_dropped :
    extract_stage_post cleanupBody.data =
      [("cleanup", { archive := none, commands := ["rm -rf tmp"], mailTo := none })] ∧
    (generate_composite_action "Deploy" [] [] none (extract_stage_post cleanupBody.data)).steps
      = [] := by
  constructor <;> rfl

/-- C7 (amended): for each outcome kind in \x7balways, success, failure\x7d
present in the stage's post block, the emitted step bundle contains a
separate step set guarded by that outcome's runtime evaluation: an archive
directive becomes an artifact-publishing step named after the stage, and
each plain command becomes a guarded run step.  (`cleanup` hooks are
extracted but dropped from stage bundles.) -/
theorem stage_post_hook_steps (stage_name : String) (commands : List String)
    (stage_env : List (String × String)) (stage_agent : Option Agent)
    (post_info : List (String × PostData)) (kind : String) (pd : PostData)
    (hkind : kind ∈ stagePostIterKinds)
    (hpd : dictGet? post_info kind = some pd) :
    (∀ g, pd.archive = some g →
      ({ name := some ("Upload artifacts (" ++ kind ++ ")")
         ifCond := some (kind ++ "()")
         uses := some "actions/upload-artifact@v4"
         withArgs := [("name", String.mk (sanitize_name stage_name.data) ++ "-" ++ kind ++ "-artifacts"),
                      ("path", g)] } : Step)
        ∈ (generate_composite_action stage_name commands stage_env stage_agent post_info).steps) ∧
    (∀ cmd, cmd ∈ pd.commands →
      ({ name := some ("Post " ++ kind), ifCond := some (kind ++ "()"),
         run := some cmd, shell := some "bash" } : Step)
        ∈ (generate_composite_action stage_name commands stage_env stage_agent post_info).steps) := by
  have hsub : stagePostKindSteps stage_name kind pd ⊆
      (generate_composite_action stage_name commands stage_env stage_agent post_info).steps := by
    intro s hs
    simp only [generate_composite_action]
    refine List.mem_append.mpr (Or.inr ?_)
    unfold stagePostSteps
    rw [List.mem_flatten]
    refine ⟨stagePostKindSteps stage_name kind pd, ?_, hs⟩
    rw [List.mem_map]
    exact ⟨kind, hkind, by rw [hpd]⟩
  constructor
  · intro g hg
    apply hsub
    unfold stagePostKindSteps
    rw [hg]
    exact List.mem_append.mpr (Or.inl (by simp))
  · intro cmd hcmd
    apply hsub
    unfold stagePostKindSteps
    refine List.mem_append.mpr (Or.inr ?_)
    rw [List.mem_map]
    exact ⟨cmd, hcmd, rfl⟩

/-- The job slugs a stage node contributes: its own slug, or its children's
slugs when it holds a parallel group. -/
def stageSlugs (s : RawStage) : List String :=
  match extract_parallel s.content with
  | [] => [gha_job_id s.name]
  | subs => subs.map (fun sub => gha_job_id sub.name)

/-- All job slugs contributed by a stage list, in document order. -/
def allSlugs (stages : List RawStage) : List String := stages.flatMap stageSlugs

theorem foldl_insert_keys_mem (l : List α) (key : α → String) (val : α → JobDef)
    (jobs : List (String × JobDef)) (k : String) :
    (k ∈ (l.foldl (fun js x => dictInsert js (key x) (val x)) jobs).map Prod.fst) ↔
      k ∈ jobs.map Prod.fst ∨ k ∈ l.map key := by
  induction l generalizing jobs with
  | nil => simp
  | cons s rest ih =>
    simp only [List.foldl_cons, List.map_cons, List.mem_cons]
    rw [ih]
    rw [dictInsert_keys_mem]
    tauto

theorem foldl_insert_keys_nodup (l : List α) (key : α → String) (val : α → JobDef)
    (jobs : List (String × JobDef)) (h : (jobs.map Prod.fst).Nodup) :
    ((l.foldl (fun js x => dictInsert js (key x) (val x)) jobs).map Prod.fst).Nodup := by
  induction l generalizing jobs with
  | nil => exact h
  | cons s rest ih =>
    simp only [List.foldl_cons]
    exact ih _ (dictInsert_keys_nodup _ _ _ h)

theorem processOneStage_keys (genv : List (String × String)) (defR : RunsOn)
    (defC : Option Container) (st : ConvState) (stage : RawStage) :
    (∀ k, k ∈ (processOneStage genv defR defC st stage).jobs.map Prod.fst ↔
        k ∈ st.jobs.map Prod.fst ∨ k ∈ stageSlugs stage) ∧
    ((st.jobs.map Prod.fst).Nodup →
      ((processOneStage genv defR defC st stage).jobs.map Prod.fst).Nodup) := by
  cases hpar : extract_parallel stage.content with
  | nil =>
    rw [processOneStage_seq _ _ _ _ _ hpar]
    constructor
    · intro k
      simp only [stageSlugs, hpar]
      rw [dictInsert_keys_mem]
      simp
    · intro h
      exact dictInsert_keys_nodup _ _ _ h
  | cons sub0 rest =>
    rw [processOneStage_par _ _ _ _ _ _ _ hpar]
    constructor
    · intro k
      simp only [stageSlugs, hpar]
      exact foldl_insert_keys_mem (sub0 :: rest) (fun sub => gha_job_id sub.name)
        (fun sub => parChildJobDef genv defR defC (parUpstream st) sub) st.jobs k
    · intro h
      exact foldl_insert_keys_nodup (sub0 :: rest) (fun sub => gha_job_id sub.name)
        (fun sub => parChildJobDef genv defR defC (parUpstream st) sub) st.jobs h

theorem processStages_keys_invariant (genv : List (String × String)) (defR : RunsOn)
    (defC : Option Container) (stages : List RawStage) :
    ∀ st : ConvState, (st.jobs.map Prod.fst).Nodup →
      (((stages.foldl (processOneStage genv defR defC) st).jobs.map Prod.fst).Nodup ∧
       ∀ k, k ∈ (stages.foldl (processOneStage genv defR defC) st).jobs.map Prod.fst ↔
         k ∈ st.jobs.map Prod.fst ∨ k ∈ allSlugs stages) := by
  induction stages with
  | nil =>
    intro st h
    refine ⟨h, fun k => ?_⟩
    simp [allSlugs]
  | cons s rest ih =>
    intro st h
    simp only [List.foldl_cons]
    have hstep := processOneStage_keys genv defR defC st s
    obtain ⟨hrest1, hrest2⟩ := ih (processOneStage genv defR defC st s) (hstep.2 h)
    refine ⟨hrest1, fun k => ?_⟩
    rw [hrest2 k, hstep.1 k]
    simp only [allSlugs, List.flatMap_cons, List.mem_append]
    tauto

/-- C4 (amended): job slugs carry no collision suffix, so distinct stage
nodes whose names normalize to the same lower-kebab slug map to the same
job identifier (the later job definition overwrites the earlier).  What
does hold: the job map's identifiers are unique as dict keys and are
exactly the set of slugs of the stage nodes, so the number of jobs equals
the number of DISTINCT slugs, which can be smaller than the number of
stage nodes. -/
theorem job_ids_are_distinct_slugs (genv : List (String × String)) (defR : RunsOn)
    (defC : Option Container) (stages : List RawStage) :
    (((processStages genv defR defC stages).jobs.map Prod.fst).Nodup) ∧
    ((processStages genv defR defC stages).jobs.map Prod.fst).toFinset
      = (allSlugs stages).toFinset := by
  have h := processStages_keys_invariant genv defR defC stages initConvState
    (by simp [initConvState])
  refine ⟨h.1, ?_⟩
  ext k
  simp only [List.mem_toFinset]
  rw [show (processStages genv defR defC stages) =
    stages.foldl (processOneStage genv defR defC) initConvState from rfl] at *
  rw [h.2 k]
  simp [initConvState]

theorem extract_post_body_sound (body : List Char) :
    ∀ p ∈ extract_post_body body, p.1 ∈ postKinds ∧ postDataNonempty p.2 := by
  intro p hp
  rw [extract_post_body] at hp
  split at hp
  · simp at hp
  · rw [List.mem_filterMap] at hp
    obtain ⟨kind, hk, he⟩ := hp
    split at he
    · rename_i hne
      cases he
      exact ⟨hk, hne⟩
    · cases he

theorem pipelinePostStepsFor_ne_nil (kind : String) (pd : PostData)
    (h : postDataNonempty pd) : pipelinePostStepsFor kind pd ≠ [] := by
  unfold pipelinePostStepsFor
  cases ha : pd.archive with
  | some g => simp
  | none =>
    by_cases hc : pd.commands.isEmpty
    · cases hm : pd.mailTo with
      | some m =>
        rw [if_pos hc]
        simp
      | none =>
        exfalso
        rw [postDataNonempty, ha, hm, hc] at h
        simp at h
    · rw [if_neg hc]
      simp

theorem pipelinePostSteps_ne_nil (post : List (String × PostData))
    (hne : post ≠ [])
    (hsound : ∀ p ∈ post, p.1 ∈ postKinds ∧ postDataNonempty p.2) :
    pipelinePostSteps post ≠ [] := by
  obtain ⟨⟨k0, pd0⟩, rest, rfl⟩ : ∃ p rest, post = p :: rest := by
    cases post with
    | nil => exact absurd rfl hne
    | cons p rest => exact ⟨p, rest, rfl⟩
  have hhead := hsound (k0, pd0) (List.mem_cons_self _ _)
  have hfor := pipelinePostStepsFor_ne_nil k0 pd0 hhead.2
  obtain ⟨s, rest', hrw⟩ : ∃ s rest', pipelinePostStepsFor k0 pd0 = s :: rest' := by
    cases hp : pipelinePostStepsFor k0 pd0 with
    | nil => exact absurd hp hfor
    | cons a l => exact ⟨a, l, rfl⟩
  have hs : s ∈ pipelinePostStepsFor k0 pd0 := by
    rw [hrw]
    exact List.mem_cons_self _ _
  have hmem : s ∈ pipelinePostSteps ((k0, pd0) :: rest) := by
    unfold pipelinePostSteps
    rw [List.mem_flatten]
    refine ⟨pipelinePostStepsFor k0 pd0, ?_, hs⟩
    rw [List.mem_map]
    refine ⟨k0, hhead.1, ?_⟩
    have : dictGet? ((k0, pd0) :: rest) k0 = some pd0 := by simp [dictGet?]
    rw [this]
  intro hnil
  rw [hnil] at hmem
  exact absurd hmem (List.not_mem_nil s)

theorem dictInsert_keys_filter (m : List (String × α)) (k : String) (v : α) :
    ((dictInsert m k v).map Prod.fst).filter (fun k' => k' ≠ k)
      = (m.map Prod.fst).filter (fun k' => k' ≠ k) := by
  induction m with
  | nil => simp [dictInsert]
  | cons p rest ih =>
    obtain ⟨k0, v0⟩ := p
    simp only [dictInsert]
    by_cases h0 : k0 = k
    · subst h0
      rw [if_pos rfl]
      simp
    · rw [if_neg h0]
      simp only [List.map_cons]
      rw [List.filter_cons, List.filter_cons]
      simp only [ih]

theorem updateJobSteps_keys : ∀ (jobs : List (String × JobDef)) (aps : List ActionPath),
    (updateJobSteps jobs aps).map Prod.fst = jobs.map Prod.fst := by
  intro jobs
  induction jobs with
  | nil => intro aps; cases aps <;> rfl
  | cons p rest ih =>
    intro aps
    obtain ⟨k, jd⟩ := p
    cases aps with
    | nil => rfl
    | cons ap aps => simp [updateJobSteps, ih]

theorem pipelinePostSteps_upload (post : List (String × PostData)) (s : Step)
    (hs : s ∈ pipelinePostSteps post)
    (hu : s.uses = some "actions/upload-artifact@v4") :
    ∃ kind g, kind ∈ postKinds ∧
      s.withArgs = [("name", "pipeline-" ++ kind ++ "-artifacts"), ("path", g)] := by
  unfold pipelinePostSteps at hs
  rw [List.mem_flatten] at hs
  obtain ⟨l, hl, hsl⟩ := hs
  rw [List.mem_map] at hl
  obtain ⟨kind, hkind, rfl⟩ := hl
  cases hget : dictGet? post kind with
  | none =>
    rw [hget] at hsl
    simp at hsl
  | some pd =>
    rw [hget] at hsl
    unfold pipelinePostStepsFor at hsl
    rcases List.mem_append.mp hsl with h12 | h3
    · rcases List.mem_append.mp h12 with h1 | h2
      · cases ha : pd.archive with
        | none =>
          rw [ha] at h1
          simp at h1
        | some g =>
          rw [ha] at h1
          rw [List.mem_singleton] at h1
          subst h1
          exact ⟨kind, g, hkind, rfl⟩
      · exfalso
        split at h2
        · simp at h2
        · rw [List.mem_singleton] at h2
          subst h2
          cases hu
    · exfalso
      cases hm : pd.mailTo with
      | none =>
        rw [hm] at h3
        simp at h3
      | some m =>
        rw [hm] at h3
        rw [List.mem_singleton] at h3
        subst h3
        cases hu

theorem addPipelinePost_spec (post : List (String × PostData)) (defR : RunsOn)
    (defC : Option Container) (jobs : List (String × JobDef))
    (hne : post ≠ [])
    (hsound : ∀ p ∈ post, p.1 ∈ postKinds ∧ postDataNonempty p.2) :
    dictGet? (addPipelinePost post defR defC jobs) "pipeline-post" =
      some { name := some "Pipeline Post", runsOn := defR, container := defC,
             needs := .many ((jobs.map Prod.fst).filter (fun k => k ≠ "pipeline-post")),
             ifCond := some "always()",
             steps := checkoutStep :: pipelinePostSteps post } ∧
    ((addPipelinePost post defR defC jobs).map Prod.fst).filter (fun k => k ≠ "pipeline-post")
      = (jobs.map Prod.fst).filter (fun k => k ≠ "pipeline-post") ∧
    ((jobs.map Prod.fst).Nodup →
      ((addPipelinePost post defR defC jobs).map Prod.fst).Nodup) := by
  have hlen : (checkoutStep :: pipelinePostSteps post).length > 1 := by
    simp only [List.length_cons]
    have := pipelinePostSteps_ne_nil post hne hsound
    cases hp : pipelinePostSteps post with
    | nil => exact absurd hp this
    | cons a l => simp
  unfold addPipelinePost
  rw [if_neg (by simpa [List.isEmpty_iff] using hne), if_pos hlen]
  refine ⟨dictGet?_insert_self _ _ _, dictInsert_keys_filter _ _ _,
    fun h => dictInsert_keys_nodup _ _ _ h⟩

/-- C5 (amended): when the comment-stripped input has a pipeline block, a
stages block and nonempty pipeline-level post-hooks, the conversion
succeeds and its job map holds a synthetic `pipeline-post` job (job ids
stay unique, so there is exactly one) whose dependency set is ALL other
jobs of the map — every job, not only the leaves — guarded by `always()`,
and whose artifact-publishing steps all use names of the form
`pipeline-<kind>-artifacts`, distinct from the per-stage
`<stage>-<kind>-artifacts` names. -/
theorem pipeline_post_job (t d : String) (ps pe ss se : Nat) (out : ConvertOutput)
    (hfb1 : find_block (strip_comments t.data) "pipeline".data = some (ps, pe))
    (hfb2 : find_block (seg (strip_comments t.data) ps pe) "stages".data = some (ss, se))
    (hpost : extract_pipeline_post (seg (strip_comments t.data) ps pe) ≠ [])
    (hok : convert_jenkins_to_gha t d = .ok out) :
    ∃ jd, dictGet? out.gha.jobs "pipeline-post" = some jd ∧
      jd.needs = .many ((out.gha.jobs.map Prod.fst).filter (fun k => k ≠ "pipeline-post")) ∧
      jd.ifCond = some "always()" ∧
      jd.name = some "Pipeline Post" ∧
      (∀ s ∈ jd.steps, s.uses = some "actions/upload-artifact@v4" →
        ∃ kind g, kind ∈ postKinds ∧
          s.withArgs = [("name", "pipeline-" ++ kind ++ "-artifacts"), ("path", g)]) ∧
      (out.gha.jobs.map Prod.fst).Nodup := by
  simp only [convert_jenkins_to_gha, hfb1, hfb2] at hok
  injection hok with hok
  subst hok
  have hsound := extract_post_body_sound (seg (strip_comments t.data) ps pe)
  have hspec := addPipelinePost_spec
    (extract_pipeline_post (seg (strip_comments t.data) ps pe))
    (defaultsFromAgent (extract_global_agent (seg (strip_comments t.data) ps pe))).1
    (defaultsFromAgent (extract_global_agent (seg (strip_comments t.data) ps pe))).2
    (updateJobSteps
      (processStages
        (match find_block (seg (strip_comments t.data) ps pe) "environment".data with
         | some (es, ee) => extract_env_kv (seg (seg (strip_comments t.data) ps pe) es ee)
         | none => [])
        (defaultsFromAgent (extract_global_agent (seg (strip_comments t.data) ps pe))).1
        (defaultsFromAgent (extract_global_agent (seg (strip_comments t.data) ps pe))).2
        (split_stages (seg (seg (strip_comments t.data) ps pe) ss se))).jobs
      (save_composite_actions
        (processStages
          (match find_block (seg (strip_comments t.data) ps pe) "environment".data with
           | some (es, ee) => extract_env_kv (seg (seg (strip_comments t.data) ps pe) es ee)
           | none => [])
          (defaultsFromAgent (extract_global_agent (seg (strip_comments t.data) ps pe))).1
          (defaultsFromAgent (extract_global_agent (seg (strip_comments t.data) ps pe))).2
          (split_stages (seg (seg (strip_comments t.data) ps pe) ss se))).stagesInfo d).2)
    hpost hsound
  refine ⟨_, hspec.1, ?_, rfl, rfl, ?_, ?_⟩
  · simp only [hspec.2.1]
  · intro s hs hu
    rw [List.mem_cons] at hs
    rcases hs with rfl | hs
    · exact absurd hu (by decide)
    · exact pipelinePostSteps_upload _ s hs hu
  · apply hspec.2.2
    rw [updateJobSteps_keys]
    exact (processStages_keys_invariant _ _ _ _ initConvState (by simp [initConvState])).1

/-- A parameters block whose first declaration lacks a `name:` and whose
second declaration is well-formed. -/
def paramsDemo : String :=
  "parameters \x7b string(defaultValue: \x27x\x27, description: \x27oops\x27) string(name: \x27GOOD\x27) \x7d"

/-- C6: the conversion aborts exactly when the comment-stripped input lacks a
pipeline block or the pipeline body lacks a stages block; an abort yields a
bare error value, so no workflow document or step bundle is produced.  A
parameter declaration lacking a name never aborts the run: it is dropped
while the remaining declarations are still collected, as the concrete
parameters body `paramsDemo` shows. -/
theorem abort_conditions (t d : String) :
    (find_block (strip_comments t.data) "pipeline".data = none →
      convert_jenkins_to_gha t d =
        .error "Not a declarative Jenkins pipeline (no \x27pipeline \x7b ... \x7d\x27 found).") ∧
    (∀ ps pe, find_block (strip_comments t.data) "pipeline".data = some (ps, pe) →
      find_block (seg (strip_comments t.data) ps pe) "stages".data = none →
      convert_jenkins_to_gha t d = .error "No \x27stages \x7b ... \x7d\x27 found.") ∧
    (∀ ps pe ss se, find_block (strip_comments t.data) "pipeline".data = some (ps, pe) →
      find_block (seg (strip_comments t.data) ps pe) "stages".data = some (ss, se) →
      ∃ out, convert_jenkins_to_gha t d = .ok out) ∧
    extract_parameters paramsDemo.data = [("GOOD", .str "" "")] := by
  refine ⟨fun h1 => ?_, fun ps pe h1 h2 => ?_, fun ps pe ss se h1 h2 => ?_, rfl⟩
  · simp only [convert_jenkins_to_gha, h1]
  · simp only [convert_jenkins_to_gha, h1, h2]
  · exact ⟨_, by simp only [convert_jenkins_to_gha, h1, h2]; rfl⟩

set_option maxRecDepth 400000 in
/-- Witness for `abort_conditions` at three concrete inputs: a text without a
pipeline block, a pipeline without stages, and a complete pipeline. -/
theorem abort_conditions_witness :
    convert_jenkins_to_gha "agent any" "." =
      .error "Not a declarative Jenkins pipeline (no \x27pipeline \x7b ... \x7d\x27 found)." ∧
    convert_jenkins_to_gha "pipeline \x7b agent any \x7d" "." =
      .error "No \x27stages \x7b ... \x7d\x27 found." ∧
    (∃ out, convert_jenkins_to_gha "pipeline \x7b stages \x7b \x7d \x7d" "." = .ok out) :=
  ⟨(abort_conditions "agent any" ".").1 rfl,
   (abort_conditions "pipeline \x7b agent any \x7d" ".").2.1 10 21 rfl rfl,
   (abort_conditions "pipeline \x7b stages \x7b \x7d \x7d" ".").2.2.1 10 22 9 10 rfl rfl⟩

/-- Two consecutive parallel groups. -/
def jtextC3 : String :=
  "pipeline \x7b stages \x7b stage(\x27P1\x27) \x7b parallel \x7b stage(\x27X\x27) \x7b \x7d stage(\x27Y\x27) \x7b \x7d \x7d \x7d stage(\x27P2\x27) \x7b parallel \x7b stage(\x27U\x27) \x7b \x7d stage(\x27V\x27) \x7b \x7d \x7d \x7d \x7d \x7d"

set_option maxRecDepth 400000 in
/-- C3 counterexample: with a parallel group X, Y immediately followed by a
parallel group U, V, the children of the second group depend only on Y (the
last job of the first group), not on the full set of the first group's job
ids: X is a job of the map, yet it is absent from U's and V's dependency
sets. -/
theorem second_parallel_group_ignores_first_group :
    ((convert_jenkins_to_gha jtextC3 ".").toOption.bind
      (fun o => (dictGet? o.gha.jobs "u").map (fun j => needsList j.needs))) = some ["y"] ∧
    ((convert_jenkins_to_gha jtextC3 ".").toOption.bind
      (fun o => (dictGet? o.gha.jobs "v").map (fun j => needsList j.needs))) = some ["y"] ∧
    ((convert_jenkins_to_gha jtextC3 ".").toOption.map
      (fun o => o.gha.jobs.map Prod.fst)) = some ["x", "y", "u", "v"] ∧
    "x" ∉ (["y"] : List String) := by
  exact ⟨rfl, rfl, rfl, by decide⟩

/-- Two sibling stages that share the name Build. -/
def jtextC4 : String :=
  "pipeline \x7b stages \x7b stage(\x27Build\x27) \x7b \x7d stage(\x27Build\x27) \x7b \x7d \x7d \x7d"

/-- The number of stage nodes (parallel children counted individually) the
stage-tree builder extracts from the input. -/
def stageNodeCount (t : String) : Option Nat :=
  (find_block (strip_comments t.data) "pipeline".data).bind (fun p =>
    (find_block (seg (strip_comments t.data) p.1 p.2) "stages".data).map (fun q =>
      ((split_stages (seg (seg (strip_comments t.data) p.1 p.2) q.1 q.2)).map (fun st =>
        match extract_parallel st.content with
        | [] => 1
        | subs => subs.length)).sum))

set_option maxRecDepth 400000 in
/-- C4 counterexample: two distinct sibling stages named Build map to the
same slug `build` with no collision suffixing — the compiled job map holds a
single job although the stage tree holds two stage nodes, so the later
stage's job silently overwrote the earlier one. -/
theorem duplicate_stage_slugs_collide :
    (convert_jenkins_to_gha jtextC4 ".").toOption.map (fun o => o.gha.jobs.map Prod.fst)
      = some ["build"] ∧
    stageNodeCount jtextC4 = some 2 :=
  ⟨rfl, rfl⟩

/-- Sequential stages A, B with a pipeline-level post block. -/
def jtextC5 : String :=
  "pipeline \x7b stages \x7b stage(\x27A\x27) \x7b \x7d stage(\x27B\x27) \x7b \x7d \x7d post \x7b always \x7b echo \x27done\x27 \x7d \x7d \x7d"

/-- Does some stage job of the map (not the synthetic post job) depend on `k`? -/
def hasSuccessorIn (jobs : List (String × JobDef)) (k : String) : Bool :=
  jobs.any (fun p => p.1 != "pipeline-post" && (needsList p.2.needs).contains k)

/-- The leaf jobs of the compiled map: stage jobs no other stage job depends on. -/
def leafJobs (jobs : List (String × JobDef)) : List String :=
  (jobs.map Prod.fst).filter (fun k => k != "pipeline-post" && !hasSuccessorIn jobs k)

set_option maxRecDepth 400000 in
/-- C5 counterexample: for the chain a←b with pipeline post-hooks, the
synthetic `pipeline-post` job depends on both a and b, although the only
leaf job is b — job a has successor b, so the dependency set is NOT the set
of jobs without successors. -/
theorem pipeline_post_depends_on_non_leaves :
    ((convert_jenkins_to_gha jtextC5 ".").toOption.bind
      (fun o => (dictGet? o.gha.jobs "pipeline-post").map (fun j => needsList j.needs)))
      = some ["a", "b"] ∧
    ((convert_jenkins_to_gha jtextC5 ".").toOption.map (fun o => leafJobs o.gha.jobs))
      = some ["b"] ∧
    ((convert_jenkins_to_gha jtextC5 ".").toOption.bind
      (fun o => (dictGet? o.gha.jobs "b").map (fun j => needsList j.needs))) = some ["a"] ∧
    (["a", "b"] : List String) ≠ ["b"] :=
  ⟨rfl, rfl, rfl, by decide⟩

/-- The converter output for `jtextC5` (total by construction; the error arm
is unreachable for this input). -/
def outC5 : ConvertOutput :=
  match convert_jenkins_to_gha jtextC5 "." with
  | .ok o => o
  | .error _ =>
    ⟨{ name := "", onPushBranches := [], onPullRequest := false,
       workflowDispatchInputs := none, env := [], jobs := [] }, []⟩

set_option maxRecDepth 400000 in
/-- Witness for `pipeline_post_job` at the concrete input `jtextC5`. -/
theorem pipeline_post_job_witness :
    ∃ jd, dictGet? outC5.gha.jobs "pipeline-post" = some jd ∧
      jd.needs = .many ((outC5.gha.jobs.map Prod.fst).filter (fun k => k ≠ "pipeline-post")) ∧
      jd.ifCond = some "always()" ∧
      jd.name = some "Pipeline Post" ∧
      (∀ s ∈ jd.steps, s.uses = some "actions/upload-artifact@v4" →
        ∃ kind g, kind ∈ postKinds ∧
          s.withArgs = [("name", "pipeline-" ++ kind ++ "-artifacts"), ("path", g)]) ∧
      (outC5.gha.jobs.map Prod.fst).Nodup :=
  pipeline_post_job jtextC5 "." 10 84 9 40 outC5 rfl rfl (by decide) rfl

/-- Concrete stage rows for the loop-level witnesses. -/
def stA : RawStage := ⟨"A", " ".data⟩

def stB : RawStage := ⟨"B", " ".data⟩

def stC : RawStage := ⟨"C", " ".data⟩

def stD : RawStage := ⟨"D", " ".data⟩

def stX : RawStage := ⟨"X", " ".data⟩

def stY : RawStage := ⟨"Y", " ".data⟩

def stU : RawStage := ⟨"U", " ".data⟩

def stV : RawStage := ⟨"V", " ".data⟩

/-- A stage body holding a parallel group with children X and Y. -/
def stP : RawStage :=
  ⟨"P", "parallel \x7b stage(\x27X\x27) \x7b \x7d stage(\x27Y\x27) \x7b \x7d \x7d".data⟩

/-- A stage body holding a parallel group with children U and V. -/
def stQ : RawStage :=
  ⟨"Q", "parallel \x7b stage(\x27U\x27) \x7b \x7d stage(\x27V\x27) \x7b \x7d \x7d".data⟩

set_option maxRecDepth 400000 in
/-- Witness for `sequential_stages_chain` at the concrete stages A, B, C. -/
theorem sequential_stages_chain_witness :
    (dictGet? (processStages [] (.str "ubuntu-latest") none [stA, stB, stC]).jobs "a").map
        (fun j => needsList j.needs) = some [] ∧
    (dictGet? (processStages [] (.str "ubuntu-latest") none [stA, stB, stC]).jobs "b").map
        (fun j => needsList j.needs) = some ["a"] ∧
    (dictGet? (processStages [] (.str "ubuntu-latest") none [stA, stB, stC]).jobs "c").map
        (fun j => needsList j.needs) = some ["b"] :=
  sequential_stages_chain [] (.str "ubuntu-latest") none stA stB stC
    rfl rfl rfl (by decide) (by decide) (by decide)

set_option maxRecDepth 400000 in
/-- Witness for `parallel_group_fanout_fanin` at the concrete stages
A, parallel(X, Y), D. -/
theorem parallel_group_fanout_fanin_witness :
    (dictGet? (processStages [] (.str "ubuntu-latest") none [stA, stP, stD]).jobs "x").map
        (fun j => needsList j.needs) = some ["a"] ∧
    (dictGet? (processStages [] (.str "ubuntu-latest") none [stA, stP, stD]).jobs "y").map
        (fun j => needsList j.needs) = some ["a"] ∧
    (dictGet? (processStages [] (.str "ubuntu-latest") none [stA, stP, stD]).jobs "d").map
        (fun j => needsList j.needs) = some ["x", "y"] ∧
    (∀ jx, dictGet? (processStages [] (.str "ubuntu-latest") none [stA, stP, stD]).jobs "x"
        = some jx → "y" ∉ needsList jx.needs) ∧
    (∀ jy, dictGet? (processStages [] (.str "ubuntu-latest") none [stA, stP, stD]).jobs "y"
        = some jy → "x" ∉ needsList jy.needs) :=
  parallel_group_fanout_fanin [] (.str "ubuntu-latest") none stA stP stD stX stY
    rfl rfl rfl (by decide) (by decide) (by decide) (by decide) (by decide)

set_option maxRecDepth 400000 in
/-- Witness for `consecutive_parallel_groups_last_only` at the concrete
groups parallel(X, Y) then parallel(U, V). -/
theorem consecutive_parallel_groups_witness :
    (dictGet? (processStages [] (.str "ubuntu-latest") none [stP, stQ]).jobs "u").map
        (fun j => needsList j.needs) = some ["y"] ∧
    (dictGet? (processStages [] (.str "ubuntu-latest") none [stP, stQ]).jobs "v").map
        (fun j => needsList j.needs) = some ["y"] ∧
    (∀ ju, dictGet? (processStages [] (.str "ubuntu-latest") none [stP, stQ]).jobs "u"
        = some ju → "x" ∉ needsList ju.needs) :=
  consecutive_parallel_groups_last_only [] (.str "ubuntu-latest") none stP stQ stX stY stU stV
    rfl rfl (by decide) (by decide)

/-- A post map holding a success hook with an archive glob and a command. -/
def postDemoC7 : List (String × PostData) :=
  [("success", { archive := some "out.zip", commands := ["echo ok"], mailTo := none })]

set_option maxRecDepth 400000 in
/-- Witness for `stage_post_hook_steps` at a concrete success hook. -/
theorem stage_post_hook_steps_witness :
    ({ name := some "Upload artifacts (success)", ifCond := some "success()",
       uses := some "actions/upload-artifact@v4",
       withArgs := [("name", "Build-success-artifacts"), ("path", "out.zip")] } : Step)
      ∈ (generate_composite_action "Build" [] [] none postDemoC7).steps ∧
    ({ name := some "Post success", ifCond := some "success()", run := some "echo ok",
       shell := some "bash" } : Step)
      ∈ (generate_composite_action "Build" [] [] none postDemoC7).steps := by
  have h := stage_post_hook_steps "Build" [] [] none postDemoC7 "success"
    { archive := some "out.zip", commands := ["echo ok"], mailTo := none } (by decide) rfl
  exact ⟨h.1 "out.zip" rfl, h.2 "echo ok" (by decide)⟩

/-- Witness for `stage_env_diff` at concrete global and stage environments. -/
theorem stage_env_diff_witness :
    dictGet? (compute_job_env [("A", "1"), ("B", "2")] [("A", "1"), ("B", "3"), ("C", "4")]) "B"
      = some "3" ∧
    dictGet? (compute_job_env [("A", "1"), ("B", "2")] [("A", "1"), ("B", "3"), ("C", "4")]) "C"
      = some "4" ∧
    dictGet? (compute_job_env [("A", "1"), ("B", "2")] [("A", "1"), ("B", "3"), ("C", "4")]) "A"
      = none := by
  refine ⟨?_, ?_, ?_⟩
  · exact (stage_env_diff [("A", "1"), ("B", "2")] [("A", "1"), ("B", "3"), ("C", "4")]
      "B" "3" (by decide) (by decide)).2.1 "2" (by decide) (by decide)
  · exact (stage_env_diff [("A", "1"), ("B", "2")] [("A", "1"), ("B", "3"), ("C", "4")]
      "C" "4" (by decide) (by decide)).2.2 (by decide)
  · exact (stage_env_diff [("A", "1"), ("B", "2")] [("A", "1"), ("B", "3"), ("C", "4")]
      "A" "1" (by decide) (by decide)).1 (by decide)

/-! The Block Scanner specification (C9). -/

theorem seg_self (t : List Char) (i : Nat) : seg t i i = [] := by
  unfold seg
  simp

theorem get?_lt_length (t : List Char) (n : Nat) (a : Char) (h : t.get? n = some a) :
    n < t.length := by
  rw [List.get?_eq_some] at h
  exact h.1

theorem seg_cons (t : List Char) (i j : Nat) (hij : i < j) (c : Char)
    (hg : t.get? i = some c) : seg t i j = c :: seg t (i + 1) j := by
  have hi : i < t.length := get?_lt_length t i c hg
  have hc : t[i] = c := by
    rw [List.get?_eq_some] at hg
    obtain ⟨h1, h2⟩ := hg
    simpa using h2
  unfold seg
  rw [List.drop_eq_getElem_cons hi, hc]
  have hj : j - i = (j - (i + 1)) + 1 := by omega
  rw [hj, List.take_succ_cons]

theorem braceBal_cons (c : Char) (l : List Char) :
    braceBal (c :: l) =
      (if c = '{' then 1 else if c = '}' then (-1 : Int) else 0) + braceBal l := rfl

theorem scanCloseF_spec (t : List Char) :
    ∀ (fuel i depth e : Nat), scanCloseF t fuel i depth = some e →
      i ≤ e ∧ e < t.length ∧ t.get? e = some '}' ∧
      braceBal (seg t i e) = -(depth : Int) ∧
      ∀ m, i ≤ m → m < e →
        ¬(t.get? m = some '}' ∧ braceBal (seg t i m) = -(depth : Int)) := by
  intro fuel
  induction fuel with
  | zero =>
    intro i depth e h
    simp [scanCloseF] at h
  | succ fuel ih =>
    intro i depth e h
    rw [scanCloseF] at h
    split at h
    · cases h
    · rename_i c hg
      by_cases hc1 : c = '{'
      · subst hc1
        rw [if_pos rfl] at h
        obtain ⟨h1, h2, h3, h4, h5⟩ := ih (i + 1) (depth + 1) e h
        have hie : i < e := by omega
        have hseg : seg t i e = '{' :: seg t (i + 1) e := seg_cons t i e hie _ hg
        refine ⟨by omega, h2, h3, ?_, ?_⟩
        · rw [hseg, braceBal_cons, h4, if_pos rfl]
          push_cast
          ring
        · intro m hm1 hm2 hcon
          rcases Nat.eq_or_lt_of_le hm1 with rfl | hlt
          · rw [hcon.1] at hg
            cases hg
          · have hm : seg t i m = '{' :: seg t (i + 1) m := seg_cons t i m hlt _ hg
            apply h5 m (by omega) hm2
            refine ⟨hcon.1, ?_⟩
            have hb := hcon.2
            rw [hm, braceBal_cons, if_pos rfl] at hb
            push_cast at hb ⊢
            omega
      · by_cases hc2 : c = '}'
        · subst hc2
          rw [if_neg hc1, if_pos rfl] at h
          by_cases hd : depth = 0
          · subst hd
            rw [if_pos rfl] at h
            injection h with h
            subst h
            refine ⟨Nat.le_refl i, get?_lt_length t i _ hg, hg, ?_, ?_⟩
            · rw [seg_self]
              simp [braceBal]
            · intro m hm1 hm2
              omega
          · rw [if_neg hd] at h
            obtain ⟨h1, h2, h3, h4, h5⟩ := ih (i + 1) (depth - 1) e h
            have hie : i < e := by omega
            have hseg : seg t i e = '}' :: seg t (i + 1) e := seg_cons t i e hie _ hg
            refine ⟨by omega, h2, h3, ?_, ?_⟩
            · rw [hseg, braceBal_cons, h4, if_neg hc1, if_pos rfl]
              omega
            · intro m hm1 hm2 hcon
              rcases Nat.eq_or_lt_of_le hm1 with rfl | hlt
              · have hb := hcon.2
                rw [seg_self] at hb
                simp [braceBal] at hb
                omega
              · have hm : seg t i m = '}' :: seg t (i + 1) m := seg_cons t i m hlt _ hg
                apply h5 m (by omega) hm2
                refine ⟨hcon.1, ?_⟩
                have hb := hcon.2
                rw [hm, braceBal_cons, if_neg hc1, if_pos rfl] at hb
                omega
        · rw [if_neg hc1, if_neg hc2] at h
          obtain ⟨h1, h2, h3, h4, h5⟩ := ih (i + 1) depth e h
          have hie : i < e := by omega
          have hseg : seg t i e = c :: seg t (i + 1) e := seg_cons t i e hie _ hg
          refine ⟨by omega, h2, h3, ?_, ?_⟩
          · rw [hseg, braceBal_cons, if_neg hc1, if_neg hc2, h4]
            ring
          · intro m hm1 hm2 hcon
            rcases Nat.eq_or_lt_of_le hm1 with rfl | hlt
            · rw [hcon.1] at hg
              injection hg with hg
              exact hc2 hg.symm
            · have hm : seg t i m = c :: seg t (i + 1) m := seg_cons t i m hlt _ hg
              apply h5 m (by omega) hm2
              refine ⟨hcon.1, ?_⟩
              have hb := hcon.2
              rw [hm, braceBal_cons, if_neg hc1, if_neg hc2] at hb
              omega

theorem scanClose_spec (t : List Char) (i depth e : Nat)
    (h : scanClose t i depth = some e) :
    i ≤ e ∧ e < t.length ∧ t.get? e = some '}' ∧
    braceBal (seg t i e) = -(depth : Int) ∧
    ∀ m, i ≤ m → m < e →
      ¬(t.get? m = some '}' ∧ braceBal (seg t i m) = -(depth : Int)) :=
  scanCloseF_spec t (t.length + 1) i depth e h

set_option maxRecDepth 400000 in
/-- C9: the Block Scanner contract.  When `find_block` succeeds, the span
`(s, e)` lies strictly between the first opening brace after the keyword
match (`s - 1` is the first non-whitespace position after the match end and
holds that opening brace) and its balancing closing brace at `e` (the first
position at which a closing brace returns the running brace balance of the
body to zero), and the extracted body `seg t s e` has zero net brace
balance.  When the keyword is absent, or the brace scan runs off the end of
the text without balancing, the sentinel (`none`, Python `(-1, -1)`) is
returned. -/
theorem find_block_spec (t kw : List Char) :
    (∀ s e, find_block t kw = some (s, e) →
      braceBal (seg t s e) = 0 ∧
      1 ≤ s ∧ s ≤ e ∧ e < t.length ∧
      t.get? (s - 1) = some '{' ∧ t.get? e = some '}' ∧
      (∃ mEnd, searchWord t kw = some mEnd ∧ s = skipWs t mEnd + 1) ∧
      (∀ m, s ≤ m → m < e → ¬(t.get? m = some '}' ∧ braceBal (seg t s m) = 0))) ∧
    (searchWord t kw = none → find_block t kw = none) ∧
    (∀ mEnd, searchWord t kw = some mEnd →
      t.get? (skipWs t mEnd) = some '{' →
      scanClose t (skipWs t mEnd + 1) 0 = none →
      find_block t kw = none) := by
  refine ⟨?_, ?_, ?_⟩
  · intro s e h
    cases hsw : searchWord t kw with
    | none =>
      rw [find_block, hsw] at h
      cases h
    | some mEnd =>
      rw [find_block, hsw] at h
      have h' : (match t.get? (skipWs t mEnd) with
          | some '{' =>
            (match scanClose t (skipWs t mEnd + 1) 0 with
             | some e' => some (skipWs t mEnd + 1, e')
             | none => none)
          | _ => none) = some (s, e) := h
      split at h'
      · rename_i heq
        cases hsc : scanClose t (skipWs t mEnd + 1) 0 with
        | none =>
          rw [hsc] at h'
          cases h'
        | some e0 =>
          rw [hsc] at h'
          have h'' : some (skipWs t mEnd + 1, e0) = some (s, e) := h'
          injection h'' with h''
          injection h'' with hs he
          subst hs
          subst he
          obtain ⟨h1, h2, h3, h4, h5⟩ := scanClose_spec t (skipWs t mEnd + 1) 0 e0 hsc
          refine ⟨by simpa using h4, by omega, h1, h2, by simpa using heq, h3,
            ⟨mEnd, rfl, rfl⟩, ?_⟩
          intro m hm1 hm2 hcon
          exact h5 m hm1 hm2 ⟨hcon.1, by simpa using hcon.2⟩
      · cases h'
  · intro h
    rw [find_block, h]
  · intro mEnd h1 h2 h3
    have hred : (match t.get? (skipWs t mEnd) with
        | some '{' =>
          (match scanClose t (skipWs t mEnd + 1) 0 with
           | some e' => some (skipWs t mEnd + 1, e')
           | none => none)
        | _ => none) = (none : Option (Nat × Nat)) := by
      rw [h2, h3]
      rfl
    rw [find_block, h1]
    exact hred

/-- A keyword followed by a balanced brace block with nested braces. -/
def tC9 : String := "stages \x7b a \x7b b \x7d c \x7d"

/-- A keyword followed by an opening brace that never closes. -/
def tC9b : String := "stages \x7b a"

set_option maxRecDepth 400000 in
/-- Witness for `find_block_spec`: on a balanced nested input the returned
body has zero net brace balance and sits strictly between the braces, and
the sentinel is returned when the keyword is absent or the block is
unbalanced. -/
theorem find_block_spec_witness :
    braceBal (seg tC9.data 8 19) = 0 ∧
    tC9.data.get? 7 = some '{' ∧
    tC9.data.get? 19 = some '}' ∧
    find_block "agent any".data "stages".data = none ∧
    find_block tC9b.data "stages".data = none := by
  have h := (find_block_spec tC9.data "stages".data).1 8 19 rfl
  exact ⟨h.1, h.2.2.2.2.1, h.2.2.2.2.2.1,
    (find_block_spec "agent any".data "stages".data).2.1 rfl,
    (find_block_spec tC9b.data "stages".data).2.2 6 rfl rfl rfl⟩

end Converter
